import Mathlib

/-!
# Delta exchange adapter (`js/delta.js`): market catalog, parsers, request signer

A shallow embedding of the adapter's pure parts.  Decoded JSON is the data
model; JavaScript `undefined` is `none`.  JavaScript numbers are modelled as
rationals (finite values only).  The product with the literal `0.001`, through
which the microsecond timestamps go, is the rounded one of IEEE-754 doubles
(`jsMul`, `jsMilli`); the other arithmetic is exact, so its rounding, overflow
to `Infinity` and the exponent forms of very large or very small numbers are
outside the model.
The shared base client (`./base/Exchange`) is not part of the sources: its
accessors are modelled below and its opaque services (hashing, URL encoding,
number parsing, currency-code canonicalisation, the clock) are fields of
`Exchange`.
-/

set_option autoImplicit false

namespace Delta

/-! ## Data model -/

/-- Decoded JSON value handed to the adapter by the transport. -/
inductive Json where
  | null
  | bool (b : Bool)
  | num (q : ℚ)
  | str (s : String)
  | arr (xs : List Json)
  | obj (kvs : List (String × Json))

instance : Inhabited Json := ⟨Json.null⟩

/-- Errors thrown while the adapter runs: its error classes, and the JavaScript
`TypeError` of a call to something that is not a function. -/
inductive Error where
  | TypeError (message : String)
  | AuthenticationError (message : String)
  | ArgumentsRequired (message : String)
  | ExchangeError (message : String)
  | InsufficientFunds (message : String)
  | BadRequest (message : String)
  | BadSymbol (message : String)
  | InvalidOrder (message : String)
  | OrderNotFound (message : String)
  deriving DecidableEq, Repr

/-- The message an error was raised with. -/
def Error.message : Error → String
  | TypeError m => m
  | AuthenticationError m => m
  | ArgumentsRequired m => m
  | ExchangeError m => m
  | InsufficientFunds m => m
  | BadRequest m => m
  | BadSymbol m => m
  | InvalidOrder m => m
  | OrderNotFound m => m

/-- The `precision` record of a market. -/
structure Precision where
  amount : ℚ
  price : Option ℚ

/-- A `min`/`max` pair of the `limits` record. -/
structure MinMax where
  min : Option ℚ
  max : Option ℚ

/-- The `limits` record of a market. -/
structure Limits where
  amount : MinMax
  price : MinMax
  cost : MinMax

/-- The market record pushed by `fetchMarkets`. -/
structure Market where
  id : Option String
  numericId : Option ℤ
  symbol : Option String
  base : Option String
  quote : Option String
  baseId : Option String
  quoteId : Option String
  type : Option String
  option : Bool
  swap : Bool
  future : Bool
  maker : Option ℚ
  taker : Option ℚ
  precision : Precision
  limits : Limits
  info : Json
  active : Bool

/-- The `limits` record of a currency. -/
structure CurrencyLimits where
  amount : MinMax
  price : MinMax
  cost : MinMax
  withdraw : MinMax

/-- The currency record built by `fetchCurrencies`. -/
structure Currency where
  id : Option String
  numericId : Option ℤ
  code : Option String
  name : Option String
  info : Json
  active : Bool
  fee : Option ℚ
  precision : Option ℚ
  limits : CurrencyLimits

/-- The record returned by the base client's `account ()`, with the fields
`fetchBalance` assigns. -/
structure Account where
  free : Option ℚ
  used : Option ℚ
  total : Option ℚ

/-- A value of the dictionary `fetchBalance` hands to `parseBalance`: the raw
response under `info`, an account under each currency code. -/
inductive BalanceEntry where
  | info (response : Option Json)
  | account (a : Account)

/-- A JavaScript object built by the adapter: a field may hold `undefined`. -/
abbrev Dict := List (String × Option Json)

/-- The exchange instance: the configuration set by `describe ()` in the
source, the credentials, and the services of the base client that the adapter
calls but does not define.  The services are parameters: every theorem holds
for all of them. -/
structure Exchange where
  /-- Value of `this.id`. -/
  id : String
  /-- Value of `this.version`. -/
  version : String
  /-- Value of `this.urls['api']['public']`. -/
  apiPublic : String
  /-- Value of `this.urls['api']['private']`. -/
  apiPrivate : String
  /-- Value of `this.apiKey`, `none` when unset. -/
  apiKey : Option String
  /-- Value of `this.secret`, `none` when unset. -/
  secret : Option String
  /-- Reading of `this.seconds ()`: the clock in whole Unix seconds. -/
  seconds : ℕ
  /-- JavaScript `String (n)` on a number. -/
  numberToString : ℚ → String
  /-- JavaScript `parseFloat` on a string; `none` when the result is not finite. -/
  parseFloat : String → Option ℚ
  /-- JavaScript `parseInt (s, 10)` on a string; `none` when the result is `NaN`. -/
  parseInt : String → Option ℤ
  /-- Base client `commonCurrencyCode (id.toUpperCase ())`. -/
  commonCurrencyCode : String → String
  /-- Base client `urlencode` on the fields of a dictionary. -/
  urlencode : List (String × Json) → String
  /-- Base client `json` (JSON text of a dictionary). -/
  json : List (String × Json) → String
  /-- Base client `hmac (this.encode (request), this.encode (secret))` with its
  defaults: SHA-256, hex digest.  `sign` reaches it only with the secret set (see
  `hmacWithSecret`). -/
  hmac : String → Option String → String
  /-- Base client `iso8601`. -/
  iso8601 : Option ℤ → Option String
  /-- Base client `safeSymbol (marketId, market)`. -/
  safeSymbol : Option String → Option Market → Option String
  /-- Base client `vwap (baseVolume, quoteVolume)`. -/
  vwap : Option ℚ → Option ℚ → Option ℚ
  /-- Base client `implodeParams (path, params)`: the path with its placeholders
  substituted. -/
  implodeParams : String → List (String × Json) → String
  /-- Base client `extractParams (path)`: the names of the placeholders of a path. -/
  extractParams : String → List String
  /-- Base client `parseOrder (order, market)`; the unified order is left opaque. -/
  parseOrder : Option Json → Market → Json
  /-- Base client `parseBalance (result)`; the unified balance is left opaque. -/
  parseBalance : List (String × BalanceEntry) → Json
  /-- Value of `this.status` before `fetchStatus` updates it. -/
  status : Dict
  /-- Base client `parseTimeframe (timeframe)`: the duration in seconds. -/
  parseTimeframe : String → ℤ
  /-- Base client `parseOHLCVs (ohlcvs, market, timeframe, since, limit)`; the
  list of candles is left opaque. -/
  parseOHLCVs : Option Json → Market → String → Option ℤ → ℤ → Json
  /-- Base client `parseOrders (orders, market, since, limit)`, left opaque. -/
  parseOrders : Option Json → Option Market → Option ℤ → Option ℤ → Json
  /-- Base client `parseTrades (trades, market, since, limit)`, left opaque. -/
  parseTrades : Option Json → Option Market → Option ℤ → Option ℤ → Json

/-! ## Base-client accessors -/

/-- Modelled from the spec: base-client `prop (o, k)` (`./base/Exchange` and its
`functions` are not under src/): field `k` of a dictionary, `undefined` for a
missing field and for anything that is not a dictionary.  The keys the adapter
reads are never array indices or `length`, so an array has none of them. -/
def prop (o : Option Json) (k : String) : Option Json :=
  match o with
  | some (Json.obj kvs) => kvs.lookup k
  | _ => none

/-- JavaScript `String (x)` on a decoded JSON value; an array is its elements
joined by commas, a `null` element being empty. -/
def jsString (numberToString : ℚ → String) : Json → String
  | Json.null => "null"
  | Json.bool b => if b then "true" else "false"
  | Json.num q => numberToString q
  | Json.str s => s
  | Json.arr xs => jsJoin numberToString xs
  | Json.obj _ => "[object Object]"
where
  /-- Elements of `Array.prototype.join` with the default separator. -/
  jsJoin (numberToString : ℚ → String) : List Json → String
    | [] => ""
    | [Json.null] => ""
    | [x] => jsString numberToString x
    | Json.null :: y :: rest => "," ++ jsJoin numberToString (y :: rest)
    | x :: y :: rest => jsString numberToString x ++ "," ++ jsJoin numberToString (y :: rest)

/-- JavaScript `parseInt` applied to a number: the integer part, rounding
towards zero. -/
def jsTrunc (q : ℚ) : ℤ := if 0 ≤ q then ⌊q⌋ else ⌈q⌉

/-- JavaScript string concatenation operand: `undefined` prints as its name. -/
def jsStr : Option String → String
  | some s => s
  | none => "undefined"

/-- Modelled from the spec: base-client `safeValue (o, k, default)`: the field
unless it is `undefined` or `null`, else the default. -/
def safeValue (o : Option Json) (k : String) (dflt : Option Json) : Option Json :=
  match prop o k with
  | none => dflt
  | some Json.null => dflt
  | some x => some x

/-- Modelled from the spec: base-client `safeString (o, k)`: the field
converted with `String (x)`, `undefined` when it is `undefined` or `null`. -/
def safeString (X : Exchange) (o : Option Json) (k : String) : Option String :=
  match prop o k with
  | none => none
  | some Json.null => none
  | some x => some (jsString X.numberToString x)

/-- Modelled from the spec: base-client `asFloat`: numbers and numeric strings,
`NaN` (here `none`) otherwise. -/
def asFloat (X : Exchange) : Option Json → Option ℚ
  | some (Json.num q) => some q
  | some (Json.str s) => X.parseFloat s
  | _ => none

/-- Modelled from the spec: base-client `asInteger`: `parseInt (x, 10)` on
numbers and strings, `NaN` (here `none`) otherwise. -/
def asInteger (X : Exchange) : Option Json → Option ℤ
  | some (Json.num q) => some (jsTrunc q)
  | some (Json.str s) => X.parseInt s
  | _ => none

/-- Modelled from the spec: base-client `safeFloat (o, k)`. -/
def safeFloat (X : Exchange) (o : Option Json) (k : String) : Option ℚ :=
  asFloat X (prop o k)

/-- Modelled from the spec: base-client `safeInteger (o, k)`. -/
def safeInteger (X : Exchange) (o : Option Json) (k : String) : Option ℤ :=
  asInteger X (prop o k)

/-- Rounding of a rational to the nearest integer, ties going to the even one. -/
def roundHalfEven (x : ℚ) : ℤ :=
  if x - ⌊x⌋ < 1 / 2 then ⌊x⌋
  else if 1 / 2 < x - ⌊x⌋ then ⌊x⌋ + 1
  else if ⌊x⌋ % 2 = 0 then ⌊x⌋ else ⌊x⌋ + 1

/-- Rounding of a rational to the nearest IEEE-754 double (a 53-bit significand,
ties to even), in the range of normal numbers: with `2 ^ e ≤ |q| < 2 ^ (e + 1)`
the doubles around `q` are the multiples of `2 ^ (e - 52)`. -/
def roundToDouble (q : ℚ) : ℚ :=
  if q = 0 then 0
  else
    let ulp : ℚ := (2 : ℚ) ^ (Int.log 2 |q| - 52)
    (roundHalfEven (q / ulp) : ℚ) * ulp

/-- JavaScript `a * b` on two doubles: the exact product rounded to a double. -/
def jsMul (a b : ℚ) : ℚ := roundToDouble (a * b)

/-- The value of the JavaScript literal `0.001`: the double nearest to one
thousandth, `1152921504606847 / 2 ^ 60`, slightly above it. -/
def jsMilli : ℚ := 1152921504606847 / 1152921504606846976

/-- Modelled from the spec: base-client `safeIntegerProduct (o, k, factor)`:
`parseInt (n * factor)` of the integer `n` read from the field, the product
being the JavaScript one, on doubles. -/
def safeIntegerProduct (X : Exchange) (o : Option Json) (k : String) (factor : ℚ) :
    Option ℤ :=
  (asInteger X (prop o k)).map fun (n : ℤ) => jsTrunc (jsMul (n : ℚ) factor)

/-- Modelled from the spec: base-client `safeTimestamp (o, k)`:
`parseInt (n * 1000)` of the number `n` read from the field. -/
def safeTimestamp (X : Exchange) (o : Option Json) (k : String) : Option ℤ :=
  (asFloat X (prop o k)).map fun (n : ℚ) => jsTrunc (n * 1000)

/-- Modelled from the spec: base-client `safeCurrencyCode (currencyId)`: the
canonical code of a currency id, `undefined` for an `undefined` id (the catalog
keeps such records "with undefined base/quote"). -/
def safeCurrencyCode (X : Exchange) (currencyId : Option String) : Option String :=
  currencyId.map X.commonCurrencyCode

/-! ## fetchMarkets -/

/-- Body of the loop of `fetchMarkets` for one raw product `market`. -/
def parseMarket (X : Exchange) (market : Json) : Market :=
  let type := safeString X (some market) "contract_type"
  let quotingAsset := safeValue (some market) "quoting_asset" (some (Json.obj []))
  let underlyingAsset := safeValue (some market) "underlying_asset" (some (Json.obj []))
  let baseId := safeString X underlyingAsset "symbol"
  let quoteId := safeString X quotingAsset "symbol"
  let id := safeString X (some market) "symbol"
  let numericId := safeInteger X (some market) "id"
  let base := safeCurrencyCode X baseId
  let quote := safeCurrencyCode X quoteId
  -- (type, swap, future, option, symbol) after the if / else-if chain
  let kind : Option String × Bool × Bool × Bool × Option String :=
    if type = some "perpetual_futures" then
      (some "swap", true, false, false, some (jsStr base ++ "/" ++ jsStr quote))
    else if type = some "call_options" ∨ type = some "put_options"
        ∨ type = some "move_options" then
      (some "option", false, false, true, id)
    else if type = some "futures" then
      (some "future", false, true, false, id)
    else
      (type, false, false, false, id)
  let precision : Precision :=
    { amount := 1, price := safeFloat X (some market) "tick_size" }
  let limits : Limits :=
    { amount := { min := some 1, max := safeFloat X (some market) "position_size_limit" }
      price := { min := precision.price, max := none }
      cost := { min := safeFloat X (some market) "min_size", max := none } }
  let state := safeString X (some market) "state"
  let active := decide (state = some "live")
  let maker := safeFloat X (some market) "maker_commission_rate"
  let taker := safeFloat X (some market) "taker_commission_rate"
  { id := id
    numericId := numericId
    symbol := kind.2.2.2.2
    base := base
    quote := quote
    baseId := baseId
    quoteId := quoteId
    type := kind.1
    option := kind.2.2.2.1
    swap := kind.2.1
    future := kind.2.2.1
    maker := maker
    taker := taker
    precision := precision
    limits := limits
    info := market
    active := active }

/-- The list the loop of `fetchMarkets` runs over, `markets[i]` for
`i < markets.length` with `markets = safeValue (response, 'result', [])`: the
elements of an array; for a string, which has a length too, one one-character
string per character (characters of the basic plane, one UTF-16 unit each);
nothing for a number or a boolean, which have no `length`, nor for an object,
taken to carry no `length` field.  The loops of `fetchCurrencies` and
`fetchBalance` read their rows the same way. -/
def rawProducts (response : Option Json) : List Json :=
  match safeValue response "result" (some (Json.arr [])) with
  | some (Json.arr ms) => ms
  | some (Json.str s) => s.toList.map fun c => Json.str (String.singleton c)
  | _ => []

/-- The adapter's `fetchMarkets`, as a function of the response of
`publicGetProducts`: one market per raw product, pushed in order. -/
def fetchMarkets (X : Exchange) (response : Option Json) : List Market :=
  (rawProducts response).map (parseMarket X)

/-! ## parseTicker -/

/-- The ticker record returned by `parseTicker`. -/
structure Ticker where
  symbol : Option String
  timestamp : Option ℤ
  datetime : Option String
  high : Option ℚ
  low : Option ℚ
  bid : Option ℚ
  bidVolume : Option ℚ
  ask : Option ℚ
  askVolume : Option ℚ
  vwap : Option ℚ
  open_ : Option ℚ
  close : Option ℚ
  last : Option ℚ
  previousClose : Option ℚ
  change : Option ℚ
  percentage : Option ℚ
  average : Option ℚ
  baseVolume : Option ℚ
  quoteVolume : Option ℚ
  info : Option Json

/-- The adapter's `parseTicker (ticker, market)`.  The source's field `open` is
`open_` here; `this.sum (last, open)` of two defined numbers is their sum. -/
def parseTicker (X : Exchange) (ticker : Option Json) (market : Option Market := none) :
    Ticker :=
  let timestamp := safeIntegerProduct X ticker "timestamp" jsMilli
  let marketId := safeString X ticker "symbol"
  let symbol := X.safeSymbol marketId market
  let last := safeFloat X ticker "close"
  let open_ := safeFloat X ticker "open"
  -- (change, average, percentage)
  let derived : Option ℚ × Option ℚ × Option ℚ :=
    match open_, last with
    | some o, some l =>
      let change := l - o
      let average := (l + o) / 2
      if o ≠ 0 then (some change, some average, some ((change / o) * 100))
      else (some change, some average, none)
    | _, _ => (none, none, none)
  let baseVolume := safeFloat X ticker "volume"
  let quoteVolume := safeFloat X ticker "turnover"
  let vwap := X.vwap baseVolume quoteVolume
  { symbol := symbol
    timestamp := timestamp
    datetime := X.iso8601 timestamp
    high := safeFloat X ticker "high"
    low := safeFloat X ticker "low"
    bid := none
    bidVolume := none
    ask := none
    askVolume := none
    vwap := vwap
    open_ := open_
    close := last
    last := last
    previousClose := none
    change := derived.1
    percentage := derived.2.2
    average := derived.2.1
    baseVolume := baseVolume
    quoteVolume := quoteVolume
    info := ticker }

/-- The reference definition of the derived ticker fields, in the words of the
specification: `(change, average, percentage)` from the parsed `open` and
`close`. -/
def tickerDerivedSpec (open_ close : Option ℚ) : Option ℚ × Option ℚ × Option ℚ :=
  match open_, close with
  | some o, some c =>
    (some (c - o), some ((c + o) / 2), if o = 0 then none else some ((c - o) / o * 100))
  | _, _ => (none, none, none)

/-! ## parseTrade -/

/-- The trade record returned by `parseTrade`. -/
structure Trade where
  id : Option String
  order : Option String
  timestamp : Option ℤ
  datetime : Option String
  symbol : Option String
  type : Option String
  side : Option String
  price : Option ℚ
  amount : Option ℚ
  cost : Option ℚ
  takerOrMaker : Option String
  fee : Option Json
  info : Option Json

/-- The adapter's `parseTrade (trade, market)`. -/
def parseTrade (X : Exchange) (trade : Option Json) (market : Option Market := none) :
    Trade :=
  let timestamp := safeIntegerProduct X trade "timestamp" jsMilli
  let price := safeFloat X trade "price"
  let amount := safeFloat X trade "size"
  let cost : Option ℚ :=
    match amount, price with
    | some a, some p => some (a * p)
    | _, _ => none
  let marketId := safeString X trade "symbol"
  let symbol := X.safeSymbol marketId market
  let sellerRole := safeString X trade "seller_role"
  let side : Option String :=
    if sellerRole = some "taker" then some "sell"
    else if sellerRole = some "maker" then some "buy"
    else none
  { id := none
    order := none
    timestamp := timestamp
    datetime := X.iso8601 timestamp
    symbol := symbol
    type := none
    side := side
    price := price
    amount := amount
    cost := cost
    takerOrMaker := none
    fee := none
    info := trade }

/-! ## parseOHLCV -/

/-- The adapter's `parseOHLCV (ohlcv, market)`: a JavaScript array of numbers,
`undefined` where a field cannot be read. -/
def parseOHLCV (X : Exchange) (ohlcv : Option Json) : List (Option ℚ) :=
  [ (safeTimestamp X ohlcv "time").map fun (t : ℤ) => (t : ℚ),
    safeFloat X ohlcv "open",
    safeFloat X ohlcv "high",
    safeFloat X ohlcv "low",
    safeFloat X ohlcv "close",
    safeFloat X ohlcv "volume" ]

/-! ## sign -/

/-- Modelled from the spec: base-client `omit (params, keys)`: the dictionary
without the listed keys ("params minus the substituted placeholders"). -/
def omit_ (params : List (String × Json)) (keys : List String) : List (String × Json) :=
  params.filter fun kv => !keys.contains kv.1

/-- Modelled from the spec: base-client `checkRequiredCredentials ()` under the
adapter's `requiredCredentials` (`apiKey: true`, `secret: false`): fails with
an authentication error when the API key is unset or empty.  The wording of the
message is the base client's and is not relied on. -/
def checkRequiredCredentials (X : Exchange) : Except Error Unit :=
  match X.apiKey with
  | none => Except.error (Error.AuthenticationError (X.id ++ " requires apiKey credential"))
  | some k =>
    if k = "" then
      Except.error (Error.AuthenticationError (X.id ++ " requires apiKey credential"))
    else Except.ok ()

/-- Value of `this.urls['api'][api]`. -/
def apiUrl (X : Exchange) (api : String) : Option String :=
  if api = "public" then some X.apiPublic
  else if api = "private" then some X.apiPrivate
  else none

/-- The record returned by `sign`. -/
structure SignedRequest where
  url : String
  method : String
  body : Option String
  headers : Option (List (String × String))

/-- The signed string in the words of the specification: `method + timestamp +
requestPath`, then `'?' + urlencode (query)` for GET and DELETE with a non-empty
query, then the JSON body for POST and PUT. -/
def authStringSpec (X : Exchange) (path method : String) (params : List (String × Json)) :
    String :=
  let requestPath := "/" ++ X.version ++ "/" ++ X.implodeParams path params
  let query := omit_ params (X.extractParams path)
  method ++ toString X.seconds ++ requestPath
    ++ (if (method = "GET" ∨ method = "DELETE") ∧ query.length ≠ 0 then "?" ++ X.urlencode query
        else "")
    ++ (if method = "POST" ∨ method = "PUT" then X.json query else "")

/-- Modelled from the spec: the call
`this.hmac (this.encode (auth), this.encode (this.secret))` made by `sign`: the
hex HMAC-SHA256 of `auth` keyed by the secret.  The adapter does not require
the secret (`requiredCredentials.secret` is false), and with the secret unset
the base client has no key to hash with: the call throws a JavaScript
`TypeError`, whose wording is not relied on. -/
def hmacWithSecret (X : Exchange) (auth : String) : Except Error String :=
  match X.secret with
  | none => Except.error (Error.TypeError "cannot compute a signature without a secret")
  | some _ => Except.ok (X.hmac auth X.secret)

/-- The adapter's `sign (path, api, method, params, headers, body)`. -/
def sign (X : Exchange) (path : String) (api : String := "public")
    (method : String := "GET") (params : List (String × Json) := [])
    (headers : Option (List (String × String)) := none) (body : Option String := none) :
    Except Error SignedRequest :=
  let requestPath := "/" ++ X.version ++ "/" ++ X.implodeParams path params
  let url := jsStr (apiUrl X api) ++ requestPath
  let query := omit_ params (X.extractParams path)
  if api = "public" then
    if query.length ≠ 0 then
      Except.ok { url := url ++ ("?" ++ X.urlencode query), method := method,
                  body := body, headers := headers }
    else
      Except.ok { url := url, method := method, body := body, headers := headers }
  else if api = "private" then
    match checkRequiredCredentials X with
    | Except.error e => Except.error e
    | Except.ok _ =>
      let timestamp := toString X.seconds
      let headers₁ : List (String × String) :=
        [("api-key", jsStr X.apiKey), ("timestamp", timestamp)]
      let auth := method ++ timestamp ++ requestPath
      if method = "GET" ∨ method = "DELETE" then
        if query.length ≠ 0 then
          let queryString := "?" ++ X.urlencode query
          let auth := auth ++ queryString
          let url := url ++ queryString
          match hmacWithSecret X auth with
          | Except.error e => Except.error e
          | Except.ok signature =>
            Except.ok { url := url, method := method, body := body,
                        headers := some (headers₁ ++ [("signature", signature)]) }
        else
          match hmacWithSecret X auth with
          | Except.error e => Except.error e
          | Except.ok signature =>
            Except.ok { url := url, method := method, body := body,
                        headers := some (headers₁ ++ [("signature", signature)]) }
      else
        let body := X.json query
        let auth := auth ++ body
        match hmacWithSecret X auth with
        | Except.error e => Except.error e
        | Except.ok signature =>
          Except.ok { url := url, method := method, body := some body,
                      headers := some (headers₁ ++
                        [("Content-Type", "application/json"), ("signature", signature)]) }
  else
    Except.ok { url := url, method := method, body := body, headers := headers }

/-! ## Predicates on raw records -/

/-- The contract types that `fetchMarkets` normalises. -/
def normalisedContractTypes : List String :=
  ["perpetual_futures", "futures", "call_options", "put_options", "move_options"]

/-- The raw product `m` has no usable asset symbol under the key `k`
(`underlying_asset` or `quoting_asset`): the sub-record is absent, or it carries
no `symbol` (absent or `null`). -/
def lacksAssetSymbol (m : Json) (k : String) : Bool :=
  match prop (some m) k with
  | none => true
  | some u =>
    match prop (some u) "symbol" with
    | none => true
    | some Json.null => true
    | some _ => false

/-! ## Dictionaries, loaded state and asynchronous calls -/

/-- JavaScript assignment `d[k] = v` on an object: an existing key keeps its
place and takes the new value, a new key is appended. -/
def setKey {α : Type} (d : List (String × α)) (k : String) (v : α) : List (String × α) :=
  match d with
  | [] => [(k, v)]
  | (k', v') :: rest => if k' = k then (k, v) :: rest else (k', v') :: setKey rest k v

/-- Modelled from the spec: base-client `extend (a, b)`: a copy of `a` with every
field of `b` assigned over it, in order. -/
def extend {α : Type} (a b : List (String × α)) : List (String × α) :=
  b.foldl (fun out kv => setKey out kv.1 kv.2) a

/-- The part of the instance state that `loadMarkets` fills and the methods
read afterwards. -/
structure State where
  /-- Base client `this.market (symbol)` on the loaded `this.markets`. -/
  market : String → Except Error Market
  /-- Base client `this.amountToPrecision (symbol, amount)`. -/
  amountToPrecision : String → ℚ → String
  /-- Base client `this.priceToPrecision (symbol, price)`. -/
  priceToPrecision : String → Option ℚ → String
  /-- The dictionary `this.currencies`, keyed by currency code. -/
  currencies : List (String × Currency)
  /-- Value of `this.options['currenciesByNumericId']`, `none` when unset. -/
  currenciesByNumericId : Option (List (String × Currency))

/-- What an asynchronous method of the adapter does, step by step: it returns,
throws, awaits `this.loadMarkets (reload)` and goes on with the loaded state, or
calls an endpoint method (named as in the source) with a request and goes on
with the response. -/
inductive Call (α : Type) where
  | done (a : α)
  | fail (e : Error)
  | loadMarkets (reload : Bool) (k : State → Call α)
  | request (endpoint : String) (params : Dict) (k : Option Json → Call α)

/-- An observable effect of a call: a catalog load or a request sent. -/
inductive Effect where
  | loadMarkets (reload : Bool)
  | request (endpoint : String) (params : Dict)

/-- The surroundings of a call: what the base client's `loadMarkets` does to the
state and what the exchange answers to a request (either may fail). -/
structure World where
  superLoadMarkets : Bool → State → Except Error State
  respond : String → Dict → Except Error (Option Json)

/-! ## fetchCurrencies and loadMarkets -/

/-- Body of the loop of `fetchCurrencies` for one raw asset `currency`: the
record stored under its code. -/
def parseCurrency (X : Exchange) (currency : Json) : Currency :=
  let id := safeString X (some currency) "symbol"
  let numericId := safeInteger X (some currency) "id"
  let code := safeCurrencyCode X id
  let depositStatus := safeString X (some currency) "deposit_status"
  let withdrawalStatus := safeString X (some currency) "withdrawal_status"
  let depositsEnabled := decide (depositStatus = some "enabled")
  let withdrawalsEnabled := decide (withdrawalStatus = some "enabled")
  let active := depositsEnabled && withdrawalsEnabled
  let precision := safeInteger X (some currency) "precision"
  { id := id
    numericId := numericId
    code := code
    name := safeString X (some currency) "name"
    info := currency
    active := active
    fee := safeFloat X (some currency) "base_withdrawal_fee"
    precision := precision.map fun (p : ℤ) => 1 / (10 : ℚ) ^ p
    limits :=
      { amount := { min := none, max := none }
        price := { min := none, max := none }
        cost := { min := none, max := none }
        withdraw :=
          { min := safeFloat X (some currency) "min_withdrawal_amount", max := none } } }

/-- The adapter's `fetchCurrencies`, as a function of the response of
`publicGetAssets`: each raw asset of `result`, in order, is stored under its
code (`result[code] = ...`). -/
def fetchCurrencies (X : Exchange) (response : Option Json) : List (String × Currency) :=
  (rawProducts response).foldl
    (fun result currency =>
      setKey result (jsStr (parseCurrency X currency).code) (parseCurrency X currency))
    []

/-- The property key JavaScript makes of a `numericId`. -/
def numericKey (X : Exchange) (numericId : Option ℤ) : String :=
  match numericId with
  | some n => X.numberToString (n : ℚ)
  | none => "undefined"

/-- Modelled from the spec: base-client `indexBy (currencies, 'numericId')`: the
"mapping numericId→Currency", each currency of the catalog stored, in order,
under its numeric id. -/
def indexByNumericId (X : Exchange) (currencies : List (String × Currency)) :
    List (String × Currency) :=
  currencies.foldl (fun out kv => setKey out (numericKey X kv.2.numericId) kv.2) []

/-- The adapter's `loadMarkets (reload)`, on the state passed along:
`superLoadMarkets` is the base client's `loadMarkets`. -/
def loadMarkets (X : Exchange) (superLoadMarkets : Bool → State → Except Error State)
    (reload : Bool) (st : State) : Except Error State :=
  match superLoadMarkets reload st with
  | Except.error e => Except.error e
  | Except.ok st₁ =>
    if st₁.currenciesByNumericId.isNone || reload then
      Except.ok { st₁ with
        currenciesByNumericId := some (indexByNumericId X st₁.currencies) }
    else
      Except.ok st₁

/-- Runs a call in given surroundings from a given state: the effects performed,
in order, the final state, and the value returned or the error thrown. -/
def Call.run {α : Type} (X : Exchange) (W : World) :
    Call α → State → List Effect × State × Except Error α
  | Call.done a, st => ([], st, Except.ok a)
  | Call.fail e, st => ([], st, Except.error e)
  | Call.loadMarkets reload k, st =>
    match Delta.loadMarkets X W.superLoadMarkets reload st with
    | Except.error e => ([Effect.loadMarkets reload], st, Except.error e)
    | Except.ok st₁ =>
      let r := Call.run X W (k st₁) st₁
      (Effect.loadMarkets reload :: r.1, r.2)
  | Call.request endpoint params k, st =>
    match W.respond endpoint params with
    | Except.error e => ([Effect.request endpoint params], st, Except.error e)
    | Except.ok response =>
      let r := Call.run X W (k response) st
      (Effect.request endpoint params :: r.1, r.2)

/-! ## createOrder, cancelOrder, cancelAllOrders -/

/-- The request `createOrder` builds before the extra `params` are merged in. -/
def createOrderRequest (st : State) (market : Market) (symbol type side : String)
    (amount : ℚ) (price : Option ℚ) : Dict :=
  let orderType := type ++ "_order"
  let request : Dict :=
    [ ("product_id", market.numericId.map fun (n : ℤ) => Json.num n),
      ("size", some (Json.str (st.amountToPrecision symbol amount))),
      ("side", some (Json.str side)),
      ("order_type", some (Json.str orderType)) ]
  if type = "limit" then
    setKey request "limit_price" (some (Json.str (st.priceToPrecision symbol price)))
  else
    request

/-- The adapter's `createOrder (symbol, type, side, amount, price, params)`. -/
def createOrder (X : Exchange) (symbol type side : String) (amount : ℚ)
    (price : Option ℚ := none) (params : Dict := []) : Call Json :=
  Call.loadMarkets false fun st =>
    match st.market symbol with
    | Except.error e => Call.fail e
    | Except.ok market =>
      let request := createOrderRequest st market symbol type side amount price
      Call.request "privatePostOrders" (extend request params) fun response =>
        let result := safeValue response "result" (some (Json.obj []))
        Call.done (X.parseOrder result market)

/-- The adapter's `cancelOrder (id, symbol, params)`.  The order id is a string;
`parseInt (id)` is read with the integer parser of the exchange instance. -/
def cancelOrder (X : Exchange) (id : String) (symbol : Option String := none)
    (params : Dict := []) : Call Json :=
  match symbol with
  | none =>
    Call.fail (Error.ArgumentsRequired (X.id ++ " cancelOrder() requires a symbol argument"))
  | some symbol =>
    Call.loadMarkets false fun st =>
      match st.market symbol with
      | Except.error e => Call.fail e
      | Except.ok market =>
        let request : Dict :=
          [ ("id", (X.parseInt id).map fun (n : ℤ) => Json.num n),
            ("product_id", market.numericId.map fun (n : ℤ) => Json.num n) ]
        Call.request "privateDeleteOrders" (extend request params) fun response =>
          let result := safeValue response "result" none
          Call.done (X.parseOrder result market)

/-- The adapter's `cancelAllOrders (symbol, params)`. -/
def cancelAllOrders (X : Exchange) (symbol : Option String := none) (params : Dict := []) :
    Call (Option Json) :=
  match symbol with
  | none =>
    Call.fail (Error.ArgumentsRequired (X.id ++ " cancelAllOrders requires a symbol argument"))
  | some symbol =>
    Call.loadMarkets false fun st =>
      match st.market symbol with
      | Except.error e => Call.fail e
      | Except.ok market =>
        let request : Dict :=
          [ ("product_id", market.numericId.map fun (n : ℤ) => Json.num n) ]
        Call.request "privateDeleteOrdersAll" (extend request params) fun response =>
          Call.done response

/-- The requests sent among a list of effects, in order. -/
def sentRequests : List Effect → List (String × Dict)
  | [] => []
  | Effect.loadMarkets _ :: rest => sentRequests rest
  | Effect.request endpoint params :: rest => (endpoint, params) :: sentRequests rest

/-! ## fetchBalance -/

/-- The `code` the loop of `fetchBalance` computes for a wallet row: the code
of the currency the index holds for the row's `asset_id`, or the `asset_id`
itself when the index has none. -/
def balanceCode (X : Exchange) (currenciesByNumericId : List (String × Currency))
    (balance : Json) : Option String :=
  let currencyId := safeString X (some balance) "asset_id"
  let currency := currenciesByNumericId.lookup (jsStr currencyId)
  match currency with
  | none => currencyId
  | some c => c.code

/-- The `account` the loop of `fetchBalance` fills for a wallet row. -/
def balanceAccount (X : Exchange) (balance : Json) : Account :=
  { free := safeFloat X (some balance) "available_balance"
    used := none
    total := safeFloat X (some balance) "balance" }

/-- One pass of the loop of `fetchBalance`: the wallet row `balance` is filed in
`result` under the code of its currency (`result[code] = account`). -/
def fileBalance (X : Exchange) (currenciesByNumericId : List (String × Currency))
    (result : List (String × BalanceEntry)) (balance : Json) :
    List (String × BalanceEntry) :=
  setKey result (jsStr (balanceCode X currenciesByNumericId balance))
    (BalanceEntry.account (balanceAccount X balance))

/-- The dictionary `fetchBalance` hands to `parseBalance`, from the state after
`loadMarkets` and the response of `privateGetWalletBalances`. -/
def balanceResult (X : Exchange) (st : State) (response : Option Json) :
    List (String × BalanceEntry) :=
  let balances := rawProducts response
  let currenciesByNumericId := st.currenciesByNumericId.getD []
  balances.foldl (fileBalance X currenciesByNumericId) [("info", BalanceEntry.info response)]

/-- The adapter's `fetchBalance (params)`. -/
def fetchBalance (X : Exchange) (params : Dict := []) : Call Json :=
  Call.loadMarkets false fun st =>
    Call.request "privateGetWalletBalances" params fun response =>
      Call.done (X.parseBalance (balanceResult X st response))

/-! ## fetchOHLCV -/

/-- The table `timeframes` of `describe ()`. -/
def timeframes : List (String × String) :=
  [ ("1m", "1m"), ("3m", "3m"), ("5m", "5m"), ("15m", "15m"), ("30m", "30m"),
    ("1h", "1h"), ("2h", "2h"), ("4h", "4h"), ("6h", "6h"), ("1d", "1d"),
    ("7d", "7d"), ("1w", "1w"), ("2w", "2w"), ("1M", "30d") ]

/-- The statement `limit = limit ? limit : 2000` of `fetchOHLCV`: an undefined or
zero limit becomes 2000, any other limit is kept. -/
def ohlcvLimit (limit : Option ℤ) : ℤ :=
  match limit with
  | some l => if l ≠ 0 then l else 2000
  | none => 2000

/-- The request `fetchOHLCV` builds before the extra `params` are merged in.
The source's variable `end` is `end_` here; `this.sum` of two numbers is their
sum. -/
def fetchOHLCVRequest (X : Exchange) (market : Market) (timeframe : String)
    (since limit : Option ℤ) : Dict :=
  let request : Dict :=
    [ ("symbol", market.id.map Json.str),
      ("resolution", (timeframes.lookup timeframe).map Json.str) ]
  let duration := X.parseTimeframe timeframe
  let limit := ohlcvLimit limit
  match since with
  | none =>
    let end_ : ℤ := (X.seconds : ℤ)
    let request := setKey request "end" (some (Json.num end_))
    setKey request "start" (some (Json.num ((end_ - limit * duration : ℤ) : ℚ)))
  | some since =>
    let start : ℤ := jsTrunc ((since : ℚ) / 1000)
    let request := setKey request "start" (some (Json.num start))
    setKey request "end" (some (Json.num ((start + limit * duration : ℤ) : ℚ)))

/-- The adapter's `fetchOHLCV (symbol, timeframe, since, limit, params)`. -/
def fetchOHLCV (X : Exchange) (symbol : String) (timeframe : String := "1m")
    (since : Option ℤ := none) (limit : Option ℤ := none) (params : Dict := []) :
    Call Json :=
  Call.loadMarkets false fun st =>
    match st.market symbol with
    | Except.error e => Call.fail e
    | Except.ok market =>
      let request := fetchOHLCVRequest X market timeframe since limit
      Call.request "publicGetHistoryCandles" (extend request params) fun response =>
        let result := safeValue response "result" (some (Json.arr []))
        Call.done (X.parseOHLCVs result market timeframe since (ohlcvLimit limit))

/-- The requested window `(start, end)` in the words of the specification:
`limit` defaults to 2000 when undefined or 0; with `since` undefined the window
ends now and starts `limit * duration` seconds earlier, otherwise it starts at
the integer part of `since / 1000` and ends `limit * duration` seconds later. -/
def ohlcvWindowSpec (now duration : ℤ) (since limit : Option ℤ) : ℤ × ℤ :=
  let span : ℤ :=
    (match limit with
      | none => 2000
      | some l => if l = 0 then 2000 else l) * duration
  match since with
  | none => (now - span, now)
  | some since => (since.tdiv 1000, since.tdiv 1000 + span)

/-! ## fetchOrdersWithMethod, fetchOpenOrders, fetchClosedOrders, fetchMyTrades -/

/-- The market of the optional `symbol` argument: `undefined` without a symbol,
otherwise `this.market (symbol)`, which may throw. -/
def resolveMarket (st : State) (symbol : Option String) : Except Error (Option Market) :=
  match symbol with
  | none => Except.ok none
  | some symbol =>
    match st.market symbol with
    | Except.error e => Except.error e
    | Except.ok market => Except.ok (some market)

/-- The request built by `fetchOrdersWithMethod` and, by the same statements, by
`fetchMyTrades`, before the extra `params` are merged in.  `since.toString ()`
of an integer is its decimal text. -/
def listRequest (market : Option Market) (since limit : Option ℤ) : Dict :=
  let request : Dict := []
  let request :=
    match market with
    | some market => setKey request "product_ids" (market.numericId.map fun (n : ℤ) => Json.num n)
    | none => request
  let request :=
    match since with
    | some since => setKey request "start_time" (some (Json.str (toString since ++ "000")))
    | none => request
  match limit with
  | some limit => setKey request "page_size" (some (Json.num limit))
  | none => request

/-- The adapter's `fetchOrdersWithMethod (method, symbol, since, limit, params)`;
`this[method]` is the endpoint method of that name. -/
def fetchOrdersWithMethod (X : Exchange) (method : String) (symbol : Option String := none)
    (since : Option ℤ := none) (limit : Option ℤ := none) (params : Dict := []) :
    Call Json :=
  Call.loadMarkets false fun st =>
    match resolveMarket st symbol with
    | Except.error e => Call.fail e
    | Except.ok market =>
      Call.request method (extend (listRequest market since limit) params) fun response =>
        let result := safeValue response "result" (some (Json.arr []))
        Call.done (X.parseOrders result market since limit)

/-- The adapter's `fetchOpenOrders (symbol, since, limit, params)`. -/
def fetchOpenOrders (X : Exchange) (symbol : Option String := none)
    (since : Option ℤ := none) (limit : Option ℤ := none) (params : Dict := []) :
    Call Json :=
  fetchOrdersWithMethod X "privateGetOrders" symbol since limit params

/-- The adapter's `fetchClosedOrders (symbol, since, limit, params)`. -/
def fetchClosedOrders (X : Exchange) (symbol : Option String := none)
    (since : Option ℤ := none) (limit : Option ℤ := none) (params : Dict := []) :
    Call Json :=
  fetchOrdersWithMethod X "privateGetOrdersHistory" symbol since limit params

/-- The adapter's `fetchMyTrades (symbol, since, limit, params)`. -/
def fetchMyTrades (X : Exchange) (symbol : Option String := none)
    (since : Option ℤ := none) (limit : Option ℤ := none) (params : Dict := []) :
    Call Json :=
  Call.loadMarkets false fun st =>
    match resolveMarket st symbol with
    | Except.error e => Call.fail e
    | Except.ok market =>
      Call.request "privateGetFills" (extend (listRequest market since limit) params)
        fun response =>
          let result := safeValue response "result" (some (Json.arr []))
          Call.done (X.parseTrades result market since limit)

/-! ## fetchTime, fetchStatus -/

/-- Modelled from the spec: a method call `this.name (o, k, factor)` on the base
client, for the integer-product accessor.  The base client defines
`safeIntegerProduct` (the scaling "every timestamp field" goes through); under
any other name there is nothing to call, and JavaScript throws a `TypeError`. -/
def callIntegerProduct (X : Exchange) (name : String) (o : Option Json) (k : String)
    (factor : ℚ) : Except Error (Option ℤ) :=
  if name = "safeIntegerProduct" then Except.ok (safeIntegerProduct X o k factor)
  else Except.error (Error.TypeError ("this." ++ name ++ " is not a function"))

/-- The adapter's `fetchTime (params)`; the accessor is called by the name
written in the source, `safeIntegerProdut`. -/
def fetchTime (X : Exchange) (params : Dict := []) : Call (Option ℤ) :=
  Call.request "publicGetSettings" params fun response =>
    let result := safeValue response "result" (some (Json.obj []))
    match callIntegerProduct X "safeIntegerProdut" result "server_time" jsMilli with
    | Except.error e => Call.fail e
    | Except.ok time => Call.done time

/-- The adapter's `fetchStatus (params)`: the value assigned to `this.status`
and returned; the accessor is called by the name written in the source,
`safeIntegerProdut`. -/
def fetchStatus (X : Exchange) (params : Dict := []) : Call Dict :=
  Call.request "publicGetSettings" params fun response =>
    let result := safeValue response "result" (some (Json.obj []))
    let underMaintenance := safeValue result "under_maintenance" none
    let status : String :=
      match underMaintenance with
      | some (Json.str s) => if s = "true" then "maintenance" else "ok"
      | _ => "ok"
    match callIntegerProduct X "safeIntegerProdut" result "server_time" jsMilli with
    | Except.error e => Call.fail e
    | Except.ok updated =>
      Call.done
        (extend X.status
          [ ("status", some (Json.str status)),
            ("updated", updated.map fun (t : ℤ) => Json.num t) ])

/-! ## handleErrors -/

/-- The table `exceptions['exact']` of `describe ()`: error code to error class. -/
def exceptionsExact : List (String × (String → Error)) :=
  [ ("insufficient_margin", Error.InsufficientFunds),
    ("order_size_exceed_available", Error.InvalidOrder),
    ("risk_limits_breached", Error.BadRequest),
    ("invalid_contract", Error.BadSymbol),
    ("immediate_liquidation", Error.InvalidOrder),
    ("out_of_bankruptcy", Error.InvalidOrder),
    ("self_matching_disrupted_post_only", Error.InvalidOrder),
    ("immediate_execution_post_only", Error.InvalidOrder),
    ("bad_schema", Error.BadRequest),
    ("invalid_api_key", Error.AuthenticationError),
    ("invalid_signature", Error.AuthenticationError),
    ("open_order_not_found", Error.OrderNotFound) ]

/-- The table `exceptions['broad']` of `describe ()`: empty. -/
def exceptionsBroad : List (String × (String → Error)) := []

/-- Modelled from the spec: base-client `throwExactlyMatchedException (exact,
string, message)`: looks the whole string up in the exact-match table and
raises the class found there with the message; does nothing when the string is
not a key. -/
def throwExactlyMatchedException (exact : List (String × (String → Error)))
    (string message : String) : Except Error Unit :=
  match exact.lookup string with
  | some errorClass => Except.error (errorClass message)
  | none => Except.ok ()

/-- Modelled from the spec: base-client `throwBroadlyMatchedException (broad,
string, message)`: raises the class of the first key of the broad table that
occurs in the string as a substring; does nothing when there is none. -/
def throwBroadlyMatchedException (broad : List (String × (String → Error)))
    (string message : String) : Except Error Unit :=
  match broad.find? fun kv => decide (kv.1.toList <:+: string.toList) with
  | some kv => Except.error (kv.2 message)
  | none => Except.ok ()

/-- The adapter's `handleErrors (code, reason, url, method, headers, body,
response, requestHeaders, requestBody)`: `Except.ok ()` is a normal return. -/
def handleErrors (X : Exchange) (code : ℤ) (reason url method : String)
    (headers : Option (List (String × String))) (body : String) (response : Option Json)
    (requestHeaders : Option (List (String × String))) (requestBody : Option String) :
    Except Error Unit :=
  match response with
  | none => Except.ok ()
  | some r =>
    let error := safeValue (some r) "error" (some (Json.obj []))
    let errorCode := safeString X error "code"
    match errorCode with
    | some errorCode =>
      let feedback := X.id ++ " " ++ body
      match throwExactlyMatchedException exceptionsExact errorCode feedback with
      | Except.error e => Except.error e
      | Except.ok _ =>
        match throwBroadlyMatchedException exceptionsBroad errorCode feedback with
        | Except.error e => Except.error e
        | Except.ok _ => Except.error (Error.ExchangeError feedback)
    | none => Except.ok ()

/-- The classification in the words of the specification: the twelve codes with
the category each one is assigned. -/
def classifiedCodesSpec : List (String × (String → Error)) :=
  [ ("insufficient_margin", Error.InsufficientFunds),
    ("order_size_exceed_available", Error.InvalidOrder),
    ("immediate_liquidation", Error.InvalidOrder),
    ("out_of_bankruptcy", Error.InvalidOrder),
    ("self_matching_disrupted_post_only", Error.InvalidOrder),
    ("immediate_execution_post_only", Error.InvalidOrder),
    ("risk_limits_breached", Error.BadRequest),
    ("bad_schema", Error.BadRequest),
    ("invalid_contract", Error.BadSymbol),
    ("invalid_api_key", Error.AuthenticationError),
    ("invalid_signature", Error.AuthenticationError),
    ("open_order_not_found", Error.OrderNotFound) ]

/-- The error code `handleErrors` reads from a response: `error.code`. -/
def responseErrorCode (X : Exchange) (response : Json) : Option String :=
  safeString X (safeValue (some response) "error" (some (Json.obj []))) "code"

/-- Two exchange instances that `sign` cannot tell apart on a private call: the
same adapter configuration and base-client services, the same API key and
secret, and the same clock reading.  Everything else may differ. -/
def sameSigner (X Y : Exchange) : Prop :=
  X.id = Y.id ∧ X.version = Y.version ∧ X.apiPrivate = Y.apiPrivate ∧
    X.apiKey = Y.apiKey ∧ X.secret = Y.secret ∧ X.seconds = Y.seconds ∧
    X.urlencode = Y.urlencode ∧ X.json = Y.json ∧ X.hmac = Y.hmac ∧
    X.implodeParams = Y.implodeParams ∧ X.extractParams = Y.extractParams

/-! ## Sample inputs -/

/-- A concrete exchange instance with stand-in services, for evaluating the
definitions on sample inputs. -/
def sampleExchange : Exchange where
  id := "delta"
  version := "v2"
  apiPublic := "https://api.delta.exchange"
  apiPrivate := "https://api.delta.exchange"
  apiKey := some "key"
  secret := some "k"
  seconds := 1000000000
  numberToString := fun _ => "0"
  parseFloat := fun _ => none
  parseInt := fun _ => none
  commonCurrencyCode := fun s => s
  urlencode := fun _ => ""
  json := fun _ => "\x7b\x7d"
  hmac := fun a _ => a
  iso8601 := fun _ => none
  safeSymbol := fun marketId _ => marketId
  vwap := fun _ _ => none
  implodeParams := fun path _ => path
  extractParams := fun _ => []
  parseOrder := fun order _ => order.getD Json.null
  parseBalance := fun _ => Json.null
  status := [("status", some (Json.str "ok")), ("updated", none)]
  parseTimeframe := fun _ => 60
  parseOHLCVs := fun ohlcvs _ _ _ _ => ohlcvs.getD Json.null
  parseOrders := fun orders _ _ _ => orders.getD Json.null
  parseTrades := fun trades _ _ _ => trades.getD Json.null

/-- The sample exchange in another state: a different public endpoint and other
stand-in parsers, the same signing configuration, credentials and clock. -/
def sampleExchangeOther : Exchange :=
  { sampleExchange with
    apiPublic := "https://testnet-api.delta.exchange"
    numberToString := fun _ => "1"
    parseInt := fun _ => some 0 }

/-- The sample exchange without an API key. -/
def sampleExchangeNoKey : Exchange :=
  { sampleExchange with apiKey := none }

/-- A raw perpetual product. -/
def samplePerpetual : Json :=
  Json.obj
    [ ("id", Json.num 139), ("symbol", Json.str "BTCUSDT"),
      ("contract_type", Json.str "perpetual_futures"),
      ("underlying_asset", Json.obj [("symbol", Json.str "BTC")]),
      ("quoting_asset", Json.obj [("symbol", Json.str "USDT")]),
      ("state", Json.str "live") ]

/-- A raw product of a contract type outside the normalisation table, without
asset sub-records. -/
def sampleInterestRateSwap : Json :=
  Json.obj
    [ ("id", Json.num 7), ("symbol", Json.str "IRS-BTC"),
      ("contract_type", Json.str "interest_rate_swaps") ]

/-- A products response carrying the two sample products. -/
def sampleProductsResponse : Option Json :=
  some (Json.obj
    [ ("result", Json.arr [samplePerpetual, sampleInterestRateSwap]),
      ("success", Json.bool true) ])

/-- A loaded state: every symbol resolves to the market of `samplePerpetual`. -/
def sampleState : State where
  market := fun _ => Except.ok (parseMarket sampleExchange samplePerpetual)
  amountToPrecision := fun _ _ => "10"
  priceToPrecision := fun _ _ => "9200"
  currencies := []
  currenciesByNumericId := none

/-- Surroundings in which the base load leaves the state as it is and every
request is answered with an empty result. -/
def sampleWorld : World where
  superLoadMarkets := fun _ st => Except.ok st
  respond := fun _ _ => Except.ok (some (Json.obj [("result", Json.obj [])]))

/-- The raw asset quoted in the source of `fetchCurrencies`. -/
def sampleAsset : Json :=
  Json.obj
    [ ("base_withdrawal_fee", Json.str "0.0005"), ("deposit_status", Json.str "enabled"),
      ("id", Json.num 2), ("name", Json.str "Bitcoin"), ("precision", Json.num 8),
      ("symbol", Json.str "BTC"), ("withdrawal_status", Json.str "enabled") ]

/-- A raw asset whose withdrawals are disabled. -/
def sampleAssetNoWithdrawal : Json :=
  Json.obj
    [ ("deposit_status", Json.str "enabled"), ("id", Json.num 3),
      ("symbol", Json.str "ETH"), ("withdrawal_status", Json.str "disabled") ]

/-- An assets response carrying the two sample assets. -/
def sampleAssetsResponse : Option Json :=
  some (Json.obj [("result", Json.arr [sampleAsset, sampleAssetNoWithdrawal])])

/-- The currency `fetchCurrencies` builds from `sampleAsset`. -/
def sampleCurrency : Currency := parseCurrency sampleExchange sampleAsset

/-- A loaded state whose catalog holds `sampleCurrency` and whose index is not
built yet. -/
def sampleStateWithCurrency : State :=
  { sampleState with currencies := [("BTC", sampleCurrency)] }

/-- A wallet row for the asset of `sampleAsset`. -/
def sampleWalletRow : Json :=
  Json.obj
    [ ("asset_id", Json.num 2), ("available_balance", Json.num 3),
      ("balance", Json.num 5), ("id", Json.num 154883) ]

/-- Surroundings in which every request is answered with the sample wallet. -/
def sampleWalletWorld : World where
  superLoadMarkets := fun _ st => Except.ok st
  respond := fun _ _ => Except.ok (some (Json.obj [("result", Json.arr [sampleWalletRow])]))

/-- The settings response quoted in the source of `fetchTime`. -/
def sampleSettingsResponse : Option Json :=
  some (Json.obj
    [ ("result", Json.obj
        [ ("server_time", Json.num 1605472733766141),
          ("under_maintenance", Json.str "false") ]),
      ("success", Json.bool true) ])

/-- Surroundings in which every request is answered with the sample settings. -/
def sampleSettingsWorld : World where
  superLoadMarkets := fun _ st => Except.ok st
  respond := fun _ _ => Except.ok sampleSettingsResponse

/-- The error response quoted in the source of `handleErrors`. -/
def sampleErrorResponse : Json :=
  Json.obj
    [ ("error", Json.obj [("code", Json.str "insufficient_margin")]),
      ("success", Json.bool false) ]

/-- An error response whose code is not in the exact table but contains one of
its keys. -/
def sampleUnknownErrorResponse : Json :=
  Json.obj
    [ ("error", Json.obj [("code", Json.str "insufficient_margin_call")]),
      ("success", Json.bool false) ]

/-- A raw ticker with `open = 100` and `close = 110`. -/
def sampleTicker : Option Json :=
  some (Json.obj
    [ ("close", Json.num 110), ("open", Json.num 100), ("symbol", Json.str "BTCUSDT"),
      ("timestamp", Json.num 1605373550208262) ])

/-- A raw public trade (price and size as numbers). -/
def sampleTrade : Option Json :=
  some (Json.obj
    [ ("buyer_role", Json.str "maker"), ("price", Json.num (31793 / 2)),
      ("seller_role", Json.str "taker"), ("size", Json.num 241),
      ("symbol", Json.str "BTCUSDT"), ("timestamp", Json.num 1605376684714595) ])

/-- A raw ticker stamped on the whole second of `sampleCandle`, in microseconds. -/
def sampleTickerOnSecond : Option Json :=
  some (Json.obj [("symbol", Json.str "BTCUSDT"), ("timestamp", Json.num 1605393120000000)])

/-- A raw trade stamped on the whole second of `sampleCandle`, in microseconds. -/
def sampleTradeOnSecond : Option Json :=
  some (Json.obj
    [ ("seller_role", Json.str "maker"), ("side", Json.str "sell"),
      ("timestamp", Json.num 1605393120000000) ])

/-- A raw ticker stamped `8841104229798999` microseconds, a safe integer. -/
def sampleTickerLate : Option Json :=
  some (Json.obj [("symbol", Json.str "BTCUSDT"), ("timestamp", Json.num 8841104229798999)])

/-- A raw trade stamped `8841104229798999` microseconds, a safe integer. -/
def sampleTradeLate : Option Json :=
  some (Json.obj
    [ ("seller_role", Json.str "maker"), ("timestamp", Json.num 8841104229798999) ])

/-- A raw candle. -/
def sampleCandle : Option Json :=
  some (Json.obj
    [ ("time", Json.num 1605393120), ("open", Json.num 15989), ("high", Json.num 15989),
      ("low", Json.num (31975 / 2)), ("close", Json.num (31975 / 2)),
      ("volume", Json.num 565) ])

end Delta

namespace Delta

/-! ## Lemmas on the accessors -/

theorem rawProducts_of_result {response : Option Json} {products : List Json}
    (h : prop response "result" = some (Json.arr products)) :
    rawProducts response = products := by
  simp [rawProducts, safeValue, h]

theorem safeString_str (X : Exchange) {o : Option Json} {k s : String}
    (h : prop o k = some (Json.str s)) : safeString X o k = some s := by
  simp [safeString, h, jsString]

theorem safeFloat_num (X : Exchange) {o : Option Json} {k : String} {q : ℚ}
    (h : prop o k = some (Json.num q)) : safeFloat X o k = some q := by
  simp [safeFloat, h, asFloat]

theorem mem_fetchMarkets {X : Exchange} {response : Option Json} {r : Market}
    (h : r ∈ fetchMarkets X response) :
    r.info ∈ rawProducts response ∧ r = parseMarket X r.info := by
  obtain ⟨m, hm, rfl⟩ := List.mem_map.mp h
  exact ⟨hm, rfl⟩

theorem sample_rawProducts :
    rawProducts sampleProductsResponse = [samplePerpetual, sampleInterestRateSwap] := by
  simp [rawProducts, safeValue, sampleProductsResponse, prop, List.lookup]

theorem sample_contract_types :
    safeString sampleExchange (some samplePerpetual) "contract_type"
        = some "perpetual_futures" ∧
      safeString sampleExchange (some sampleInterestRateSwap) "contract_type"
        = some "interest_rate_swaps" := by
  constructor <;>
    simp [safeString, prop, List.lookup, samplePerpetual, sampleInterestRateSwap, jsString]

/-! ## fetchMarkets: catalog completeness and contract-type normalisation -/

/-- C1: when the response carries the list `products` under `result`,
`fetchMarkets` returns a list of the same length whose i-th market is the one
built from the i-th raw product, and the `info` fields of the output, in order,
are exactly the raw products: nothing is dropped, duplicated or reordered. -/
theorem fetchMarkets_complete (X : Exchange) (response : Option Json)
    (products : List Json) (h : prop response "result" = some (Json.arr products)) :
    (fetchMarkets X response).length = products.length ∧
      (∀ i : ℕ, (fetchMarkets X response)[i]? = (products[i]?).map (parseMarket X)) ∧
      (fetchMarkets X response).map Market.info = products := by
  have hp := rawProducts_of_result h
  refine ⟨by simp [fetchMarkets, hp], fun i => by simp [fetchMarkets, hp], ?_⟩
  simp only [fetchMarkets, hp, List.map_map]
  have hinfo : Market.info ∘ parseMarket X = id := by
    funext m
    simp [parseMarket]
  rw [hinfo, List.map_id]

theorem fetchMarkets_complete_witness :
    prop sampleProductsResponse "result"
        = some (Json.arr [samplePerpetual, sampleInterestRateSwap]) ∧
      (fetchMarkets sampleExchange sampleProductsResponse).length = 2 ∧
      (fetchMarkets sampleExchange sampleProductsResponse).map Market.info
        = [samplePerpetual, sampleInterestRateSwap] :=
  have h : prop sampleProductsResponse "result"
      = some (Json.arr [samplePerpetual, sampleInterestRateSwap]) := by
    simp [sampleProductsResponse, prop, List.lookup]
  ⟨h, (fetchMarkets_complete sampleExchange sampleProductsResponse _ h).1,
    (fetchMarkets_complete sampleExchange sampleProductsResponse _ h).2.2⟩

/-- C2: every market `r` returned by `fetchMarkets` is normalised from the
`contract_type` of its raw product `r.info`: `perpetual_futures` gives type
`swap` with only the swap flag set and symbol `base + '/' + quote`; `futures`
gives type `future` with only the future flag set and the raw id as symbol;
`call_options`, `put_options` and `move_options` give type `option` with only
the option flag set and the raw id as symbol.  Hence a swap market has symbol
`base + '/' + quote` and every other market has the raw exchange symbol. -/
theorem fetchMarkets_contract_type (X : Exchange) (response : Option Json) (r : Market)
    (hr : r ∈ fetchMarkets X response) :
    (safeString X (some r.info) "contract_type" = some "perpetual_futures" →
        r.type = some "swap" ∧ r.swap = true ∧ r.future = false ∧ r.option = false ∧
        r.symbol = some (jsStr r.base ++ "/" ++ jsStr r.quote)) ∧
      (safeString X (some r.info) "contract_type" = some "futures" →
        r.type = some "future" ∧ r.swap = false ∧ r.future = true ∧ r.option = false ∧
        r.symbol = r.id) ∧
      (∀ ct ∈ ["call_options", "put_options", "move_options"],
        safeString X (some r.info) "contract_type" = some ct →
        r.type = some "option" ∧ r.swap = false ∧ r.future = false ∧ r.option = true ∧
        r.symbol = r.id) ∧
      r.id = safeString X (some r.info) "symbol" ∧
      (r.swap = true → r.symbol = some (jsStr r.base ++ "/" ++ jsStr r.quote)) ∧
      (r.swap = false → r.symbol = r.id) := by
  obtain ⟨-, hrm⟩ := mem_fetchMarkets hr
  generalize r.info = m at hrm
  subst hrm
  refine ⟨?_, ?_, ?_, rfl, ?_, ?_⟩
  · intro h
    simp [parseMarket, h]
  · intro h
    simp [parseMarket, h]
  · intro ct hct h
    simp only [List.mem_cons, List.mem_singleton, List.mem_nil_iff, or_false] at hct
    rcases hct with rfl | rfl | rfl <;> simp [parseMarket, h]
  · intro h
    by_cases h1 : safeString X (some m) "contract_type" = some "perpetual_futures"
    · simp [parseMarket, h1]
    · exfalso
      revert h
      simp only [parseMarket, h1, if_false]
      split_ifs <;> simp
  · intro h
    by_cases h1 : safeString X (some m) "contract_type" = some "perpetual_futures"
    · exfalso
      revert h
      simp [parseMarket, h1]
    · simp only [parseMarket, h1, if_false]
      split_ifs <;> rfl

theorem fetchMarkets_contract_type_witness :
    parseMarket sampleExchange samplePerpetual
        ∈ fetchMarkets sampleExchange sampleProductsResponse ∧
      (parseMarket sampleExchange samplePerpetual).type = some "swap" ∧
      (parseMarket sampleExchange samplePerpetual).symbol = some "BTC/USDT" :=
  have hr : parseMarket sampleExchange samplePerpetual
      ∈ fetchMarkets sampleExchange sampleProductsResponse := by
    simp [fetchMarkets, sample_rawProducts]
  have hc := (fetchMarkets_contract_type sampleExchange sampleProductsResponse _ hr).1
    sample_contract_types.1
  ⟨hr, hc.1, by
    rw [hc.2.2.2.2]
    simp [parseMarket, samplePerpetual, safeValue, safeString, prop, List.lookup, jsString,
      safeCurrencyCode, sampleExchange, jsStr]⟩

/-- C3 (counterexample): the raw product with `contract_type`
`interest_rate_swaps` is catalogued with type `interest_rate_swaps`, not `spot`. -/
theorem fetchMarkets_other_type_counterexample :
    safeString sampleExchange (some sampleInterestRateSwap) "contract_type"
        = some "interest_rate_swaps" ∧
      (fetchMarkets sampleExchange sampleProductsResponse).map Market.type
        = [some "swap", some "interest_rate_swaps"] ∧
      (parseMarket sampleExchange sampleInterestRateSwap).type ≠ some "spot" := by
  refine ⟨sample_contract_types.2, ?_, ?_⟩
  · simp [fetchMarkets, sample_rawProducts, parseMarket, sample_contract_types.1,
      sample_contract_types.2]
  · simp [parseMarket, sample_contract_types.2]

/-- C3 (amended): for every market `r` returned by `fetchMarkets` whose raw
`contract_type` is none of `perpetual_futures`, `futures`, `call_options`,
`put_options`, `move_options` (absent included), the type of `r` is the raw
`contract_type` passed through unchanged (`undefined` when absent), the swap,
future and option flags are all false, and the symbol is the raw exchange
symbol. -/
theorem fetchMarkets_other_type (X : Exchange) (response : Option Json) (r : Market)
    (hr : r ∈ fetchMarkets X response)
    (hct : ∀ ct ∈ normalisedContractTypes,
      safeString X (some r.info) "contract_type" ≠ some ct) :
    r.type = safeString X (some r.info) "contract_type" ∧
      r.swap = false ∧ r.future = false ∧ r.option = false ∧
      r.symbol = safeString X (some r.info) "symbol" := by
  obtain ⟨-, hrm⟩ := mem_fetchMarkets hr
  generalize r.info = m at hrm hct
  subst hrm
  have h1 := hct "perpetual_futures" (by simp [normalisedContractTypes])
  have h2 := hct "futures" (by simp [normalisedContractTypes])
  have h3 := hct "call_options" (by simp [normalisedContractTypes])
  have h4 := hct "put_options" (by simp [normalisedContractTypes])
  have h5 := hct "move_options" (by simp [normalisedContractTypes])
  simp [parseMarket, h1, h2, h3, h4, h5]

theorem fetchMarkets_other_type_witness :
    parseMarket sampleExchange sampleInterestRateSwap
        ∈ fetchMarkets sampleExchange sampleProductsResponse ∧
      (parseMarket sampleExchange sampleInterestRateSwap).type
        = some "interest_rate_swaps" ∧
      (parseMarket sampleExchange sampleInterestRateSwap).swap = false :=
  have hr : parseMarket sampleExchange sampleInterestRateSwap
      ∈ fetchMarkets sampleExchange sampleProductsResponse := by
    simp [fetchMarkets, sample_rawProducts]
  have hc := fetchMarkets_other_type sampleExchange sampleProductsResponse _ hr (by
    intro ct hct
    have hinfo : (parseMarket sampleExchange sampleInterestRateSwap).info
        = sampleInterestRateSwap := rfl
    rw [hinfo, sample_contract_types.2]
    simp only [normalisedContractTypes, List.mem_cons, List.mem_singleton,
      List.mem_nil_iff, or_false] at hct
    rcases hct with rfl | rfl | rfl | rfl | rfl <;> decide)
  ⟨hr, hc.1.trans sample_contract_types.2, hc.2.1⟩

theorem safeString_symbol_of_lacksAssetSymbol (X : Exchange) {m : Json} {k : String}
    (h : lacksAssetSymbol m k = true) :
    safeString X (safeValue (some m) k (some (Json.obj []))) "symbol" = none := by
  unfold lacksAssetSymbol at h
  unfold safeValue
  cases hk : prop (some m) k with
  | none => simp [safeString, prop]
  | some u =>
    rw [hk] at h
    have hsym : safeString X (some u) "symbol" = none := by
      unfold safeString
      cases hs : prop (some u) "symbol" with
      | none => rfl
      | some v =>
        simp only [hs] at h
        cases v <;> simp_all
    cases u <;> exact hsym

/-- C4: when the i-th raw product under `result` lacks the `underlying_asset`
sub-record or its `symbol` (respectively `quoting_asset`), `fetchMarkets` still
emits the i-th market, built from that product, with `baseId` and `base`
(respectively `quoteId` and `quote`) undefined; no condition is put on
`contract_type`, so this covers `perpetual_futures` too. -/
theorem fetchMarkets_missing_asset (X : Exchange) (response : Option Json)
    (products : List Json) (i : ℕ) (m : Json)
    (h : prop response "result" = some (Json.arr products))
    (hm : products[i]? = some m) :
    ∃ r, (fetchMarkets X response)[i]? = some r ∧ r.info = m ∧
      (lacksAssetSymbol m "underlying_asset" = true → r.baseId = none ∧ r.base = none) ∧
      (lacksAssetSymbol m "quoting_asset" = true → r.quoteId = none ∧ r.quote = none) := by
  refine ⟨parseMarket X m, ?_, rfl, ?_, ?_⟩
  · simp [fetchMarkets, rawProducts_of_result h, hm]
  · intro hb
    have := safeString_symbol_of_lacksAssetSymbol X hb
    simp [parseMarket, this, safeCurrencyCode]
  · intro hq
    have := safeString_symbol_of_lacksAssetSymbol X hq
    simp [parseMarket, this, safeCurrencyCode]

theorem fetchMarkets_missing_asset_witness :
    prop sampleProductsResponse "result"
        = some (Json.arr [samplePerpetual, sampleInterestRateSwap]) ∧
      [samplePerpetual, sampleInterestRateSwap][1]? = some sampleInterestRateSwap ∧
      lacksAssetSymbol sampleInterestRateSwap "underlying_asset" = true ∧
      ∃ r, (fetchMarkets sampleExchange sampleProductsResponse)[1]? = some r ∧
        r.info = sampleInterestRateSwap ∧ r.baseId = none ∧ r.base = none :=
  have h : prop sampleProductsResponse "result"
      = some (Json.arr [samplePerpetual, sampleInterestRateSwap]) := by
    simp [sampleProductsResponse, prop, List.lookup]
  have hl : lacksAssetSymbol sampleInterestRateSwap "underlying_asset" = true := by
    simp [lacksAssetSymbol, sampleInterestRateSwap, prop, List.lookup]
  ⟨h, rfl, hl,
    (fetchMarkets_missing_asset sampleExchange sampleProductsResponse _ 1
      sampleInterestRateSwap h rfl).imp fun _ hr => ⟨hr.1, hr.2.1, hr.2.2.1 hl⟩⟩

/-! ## Lemmas on integer parts -/

theorem jsTrunc_intCast (n : ℤ) : jsTrunc (n : ℚ) = n := by
  unfold jsTrunc
  split_ifs <;> simp

theorem jsTrunc_int_milli (t : ℤ) : jsTrunc ((t : ℚ) * (1 / 1000)) = t.tdiv 1000 := by
  have hq : (t : ℚ) * (1 / 1000) = (t : ℚ) / ((1000 : ℕ) : ℚ) := by
    push_cast
    ring
  unfold jsTrunc
  by_cases ht : 0 ≤ t
  · have h0 : (0 : ℚ) ≤ (t : ℚ) * (1 / 1000) := by
      have : (0 : ℚ) ≤ (t : ℚ) := by exact_mod_cast ht
      positivity
    rw [if_pos h0, hq, Rat.floor_intCast_div_natCast]
    exact (Int.tdiv_eq_ediv ht (by norm_num)).symm
  · have htn : t < 0 := not_le.mp ht
    have h0 : ¬ (0 : ℚ) ≤ (t : ℚ) * (1 / 1000) := by
      have : (t : ℚ) < 0 := by exact_mod_cast htn
      intro h
      linarith
    have hneg : -((t : ℚ) / ((1000 : ℕ) : ℚ)) = ((-t : ℤ) : ℚ) / ((1000 : ℕ) : ℚ) := by
      push_cast
      ring
    have hceil : ⌈(t : ℚ) / ((1000 : ℕ) : ℚ)⌉ = -⌊-((t : ℚ) / ((1000 : ℕ) : ℚ))⌋ := by
      rw [Int.floor_neg, neg_neg]
    rw [if_neg h0, hq, hceil, hneg, Rat.floor_intCast_div_natCast]
    have h1 : (-t).tdiv 1000 = (-t) / ((1000 : ℕ) : ℤ) :=
      Int.tdiv_eq_ediv (by omega) (by norm_num)
    rw [← h1, Int.neg_tdiv, neg_neg]

/-! ## Lemmas on the product with the double `0.001` -/

theorem floor_le_roundHalfEven (x : ℚ) : ⌊x⌋ ≤ roundHalfEven x := by
  unfold roundHalfEven
  split_ifs <;> omega

theorem roundHalfEven_le (x : ℚ) : (roundHalfEven x : ℚ) ≤ x + 1 / 2 := by
  unfold roundHalfEven
  have h1 := Int.floor_le x
  split_ifs with h2 h3 h4
  · linarith
  · have := Int.lt_floor_add_one x
    push_cast
    linarith
  · linarith
  · push_cast
    have : x - ⌊x⌋ = 1 / 2 := le_antisymm (not_lt.mp h3) (not_lt.mp h2)
    linarith

theorem le_roundHalfEven_of_le {N : ℤ} {x : ℚ} (h : (N : ℚ) ≤ x) : N ≤ roundHalfEven x :=
  (Int.le_floor.mpr h).trans (floor_le_roundHalfEven x)

/-- Bounds for the double nearest to a positive `q` below `2 ^ E`, `E ≤ 53`: it is
at most half a unit in the last place above `q`, and not below any integer `k ≤ q`. -/
theorem roundToDouble_bounds {q : ℚ} (hq : 0 < q) {E : ℤ} (hE : E ≤ 53)
    (hlt : q < (2 : ℚ) ^ E) (k : ℕ) (hk : (k : ℚ) ≤ q) :
    (k : ℚ) ≤ roundToDouble q ∧ roundToDouble q ≤ q + (2 : ℚ) ^ (E - 54) := by
  have habs : |q| = q := abs_of_pos hq
  have hlog : Int.log 2 q < E := by
    have := (Int.lt_zpow_iff_log_lt (b := 2) (by norm_num) hq (x := E)).mp (by exact_mod_cast hlt)
    exact this
  set e := Int.log 2 q with he
  have hulp_pos : (0 : ℚ) < (2 : ℚ) ^ (e - 52) := by positivity
  have hD : roundToDouble q = (roundHalfEven (q / (2 : ℚ) ^ (e - 52)) : ℚ) * (2 : ℚ) ^ (e - 52) := by
    simp only [roundToDouble, hq.ne', if_false, habs, he]
  rw [hD]
  constructor
  · -- integrality of k / ulp
    have hn : (0 : ℤ) ≤ 52 - e := by omega
    obtain ⟨j, hj⟩ := Int.eq_ofNat_of_zero_le hn
    have hinv : ((2 : ℚ) ^ (e - 52))⁻¹ = (2 : ℚ) ^ j := by
      rw [← zpow_neg, neg_sub, hj, zpow_natCast]
    have hN : (((k * 2 ^ j : ℕ) : ℤ) : ℚ) ≤ q / (2 : ℚ) ^ (e - 52) := by
      rw [div_eq_mul_inv, hinv]
      push_cast
      exact mul_le_mul_of_nonneg_right hk (by positivity)
    have hle := le_roundHalfEven_of_le hN
    have hle' : (((k * 2 ^ j : ℕ) : ℤ) : ℚ) ≤ (roundHalfEven (q / (2 : ℚ) ^ (e - 52)) : ℚ) := by
      exact_mod_cast hle
    calc (k : ℚ) = (((k * 2 ^ j : ℕ) : ℤ) : ℚ) * (2 : ℚ) ^ (e - 52) := by
          push_cast
          rw [mul_assoc, ← hinv, inv_mul_cancel₀ hulp_pos.ne', mul_one]
      _ ≤ _ := mul_le_mul_of_nonneg_right hle' hulp_pos.le
  · have h1 := roundHalfEven_le (q / (2 : ℚ) ^ (e - 52))
    have h2 : (roundHalfEven (q / (2 : ℚ) ^ (e - 52)) : ℚ) * (2 : ℚ) ^ (e - 52)
        ≤ (q / (2 : ℚ) ^ (e - 52) + 1 / 2) * (2 : ℚ) ^ (e - 52) :=
      mul_le_mul_of_nonneg_right h1 hulp_pos.le
    have h3 : (q / (2 : ℚ) ^ (e - 52) + 1 / 2) * (2 : ℚ) ^ (e - 52)
        = q + (2 : ℚ) ^ (e - 52) / 2 := by
      field_simp
      ring
    have h4 : (2 : ℚ) ^ (e - 52) / 2 ≤ (2 : ℚ) ^ (E - 54) := by
      have : (2 : ℚ) ^ (e - 52) / 2 = (2 : ℚ) ^ (e - 53) := by
        rw [show e - 53 = (e - 52) - 1 by ring, zpow_sub_one₀ (by norm_num)]
        rfl
      rw [this]
      exact zpow_le_zpow_right₀ (by norm_num) (by omega)
    linarith

theorem jsTrunc_of_mem_Ico {D : ℚ} {k : ℕ} (h1 : (k : ℚ) ≤ D) (h2 : D < k + 1) :
    jsTrunc D = k := by
  have h0 : (0 : ℚ) ≤ D := le_trans (by positivity) h1
  rw [jsTrunc, if_pos h0]
  exact Int.floor_eq_iff.mpr ⟨by exact_mod_cast h1, by exact_mod_cast h2⟩

theorem jsMilli_mul (t : ℚ) : t * jsMilli = t / 1000 + 3 * t / 144115188075855872000 := by
  unfold jsMilli
  ring

/-- Microseconds below `2 ^ 43 * 1000`: the product with the double `0.001`,
rounded to a double and truncated, is the integer part of `t / 1000`. -/
theorem jsTrunc_jsMul_milli (t : ℕ) (ht : t < 8796093022208000) :
    jsTrunc (jsMul (t : ℚ) jsMilli) = ((t / 1000 : ℕ) : ℤ) := by
  rcases Nat.eq_zero_or_pos t with rfl | hpos
  · simp [jsMul, roundToDouble, jsTrunc]
  have hdm : t = 1000 * (t / 1000) + t % 1000 := (Nat.div_add_mod t 1000).symm
  have hr : t % 1000 < 1000 := Nat.mod_lt _ (by norm_num)
  have hk : t / 1000 < 8796093022208 := by omega
  have htq : (t : ℚ) = 1000 * ((t / 1000 : ℕ) : ℚ) + ((t % 1000 : ℕ) : ℚ) := by
    exact_mod_cast hdm
  have hrq : ((t % 1000 : ℕ) : ℚ) ≤ 999 := by
    have : t % 1000 ≤ 999 := by omega
    exact_mod_cast this
  have hr0 : (0 : ℚ) ≤ ((t % 1000 : ℕ) : ℚ) := by positivity
  have hkq : ((t / 1000 : ℕ) : ℚ) ≤ 8796093022207 := by
    have : t / 1000 ≤ 8796093022207 := by omega
    exact_mod_cast this
  have htpos : (0 : ℚ) < (t : ℚ) := by exact_mod_cast hpos
  have hq := jsMilli_mul (t : ℚ)
  have hqpos : (0 : ℚ) < (t : ℚ) * jsMilli := by
    rw [hq]; positivity
  have hpow : ((2 : ℚ) ^ (43 : ℤ)) = 8796093022208 := by norm_num
  have hpow2 : ((2 : ℚ) ^ ((43 : ℤ) - 54)) = 1 / 2048 := by norm_num
  obtain ⟨hlo, hhi⟩ := @roundToDouble_bounds _ hqpos 43 (by norm_num)
    (by rw [hq, hpow]; linarith) (t / 1000) (by rw [hq]; linarith)
  rw [hpow2] at hhi
  apply jsTrunc_of_mem_Ico hlo
  show roundToDouble _ < _
  linarith

/-- Whole seconds given in microseconds, within the safe integers: the product
with the double `0.001`, rounded and truncated, is the whole milliseconds. -/
theorem jsTrunc_jsMul_milli_seconds (s : ℕ) (hs : s * 1000000 ≤ 9007199254740991) :
    jsTrunc (jsMul ((s * 1000000 : ℕ) : ℚ) jsMilli) = ((s * 1000 : ℕ) : ℤ) := by
  rcases Nat.eq_zero_or_pos s with rfl | hpos
  · simp [jsMul, roundToDouble, jsTrunc]
  have hsq : (s : ℚ) ≤ 9007199254 := by
    have : s ≤ 9007199254 := by omega
    exact_mod_cast this
  have hspos : (0 : ℚ) < (s : ℚ) := by exact_mod_cast hpos
  have hq := jsMilli_mul ((s * 1000000 : ℕ) : ℚ)
  have hcast : ((s * 1000000 : ℕ) : ℚ) = (s : ℚ) * 1000000 := by push_cast; ring
  have hcast2 : ((s * 1000 : ℕ) : ℚ) = (s : ℚ) * 1000 := by push_cast; ring
  rw [hcast] at hq ⊢
  have hqpos : (0 : ℚ) < (s : ℚ) * 1000000 * jsMilli := by
    rw [hq]; positivity
  have hpow : ((2 : ℚ) ^ (44 : ℤ)) = 17592186044416 := by norm_num
  have hpow2 : ((2 : ℚ) ^ ((44 : ℤ) - 54)) = 1 / 1024 := by norm_num
  obtain ⟨hlo, hhi⟩ := @roundToDouble_bounds _ hqpos 44 (by norm_num)
    (by rw [hq, hpow]; linarith) (s * 1000) (by rw [hq, hcast2]; linarith)
  rw [hpow2] at hhi
  apply jsTrunc_of_mem_Ico hlo
  rw [hcast2]
  show roundToDouble _ < _
  linarith

/-- Above the bound the scaling by the double `0.001` can round up to the next
millisecond. -/
theorem jsTrunc_jsMul_milli_large :
    jsTrunc (jsMul (8841104229798999 : ℚ) jsMilli) = 8841104229799 := by
  have hq : (8841104229798999 : ℚ) * jsMilli
      = 10193099191005821123315329146153 / 1152921504606846976 := by
    unfold jsMilli; norm_num
  have hpos : (0 : ℚ) < 10193099191005821123315329146153 / 1152921504606846976 := by norm_num
  have hlog : Int.log 2 (10193099191005821123315329146153 / 1152921504606846976 : ℚ) = 43 := by
    apply le_antisymm
    · have h : (10193099191005821123315329146153 / 1152921504606846976 : ℚ)
          < (2 : ℚ) ^ ((43 : ℤ) + 1) := by norm_num
      have := (Int.lt_zpow_iff_log_lt (by norm_num : 1 < 2) hpos).1 h
      omega
    · have h : ((2 : ℚ) ^ (43 : ℤ))
          ≤ (10193099191005821123315329146153 / 1152921504606846976 : ℚ) := by norm_num
      exact (Int.zpow_le_iff_le_log (by norm_num : 1 < 2) hpos).1 h
  have hfloor : ⌊(10193099191005821123315329146153 / 1152921504606846976 : ℚ)
      / (2 : ℚ) ^ ((43 : ℤ) - 52)⌋ = 4526645365657087 := by
    rw [Int.floor_eq_iff]
    constructor <;> norm_num
  have hround : roundHalfEven ((10193099191005821123315329146153 / 1152921504606846976 : ℚ)
      / (2 : ℚ) ^ ((43 : ℤ) - 52)) = 4526645365657088 := by
    unfold roundHalfEven
    rw [hfloor]
    norm_num
  have hD : jsMul (8841104229798999 : ℚ) jsMilli = 8841104229799 := by
    unfold jsMul roundToDouble
    rw [hq, if_neg (ne_of_gt hpos)]
    simp only [abs_of_pos hpos, hlog, hround]
    norm_num
  rw [hD]
  exact @jsTrunc_of_mem_Ico 8841104229799 8841104229799 (by norm_num) (by norm_num)

theorem roundHalfEven_neg (x : ℚ) : roundHalfEven (-x) = -roundHalfEven x := by
  by_cases hx : x = (⌊x⌋ : ℚ)
  · have hn : ⌊-x⌋ = -⌊x⌋ := by
      rw [hx, ← Int.cast_neg, Int.floor_intCast, Int.floor_intCast]
    have h1 : x - (⌊x⌋ : ℚ) = 0 := by linarith
    have h2 : -x - ((-⌊x⌋ : ℤ) : ℚ) = 0 := by push_cast; linarith
    unfold roundHalfEven
    rw [hn, h2, h1]
    norm_num
  · have hlt : (⌊x⌋ : ℚ) < x := lt_of_le_of_ne (Int.floor_le x) (Ne.symm hx)
    have hlt2 : x < (⌊x⌋ : ℚ) + 1 := Int.lt_floor_add_one x
    have hn : ⌊-x⌋ = -⌊x⌋ - 1 := by
      rw [Int.floor_eq_iff]
      push_cast
      constructor <;> linarith
    unfold roundHalfEven
    rw [hn]
    push_cast
    by_cases ha : x - (⌊x⌋ : ℚ) < 1 / 2
    · have hb : ¬ (-x - (-(⌊x⌋ : ℚ) - 1) < 1 / 2) := by intro h; linarith
      have hc : (1 : ℚ) / 2 < -x - (-(⌊x⌋ : ℚ) - 1) := by linarith
      rw [if_pos ha, if_neg hb, if_pos hc]
      ring
    · by_cases hb : (1 : ℚ) / 2 < x - (⌊x⌋ : ℚ)
      · have hc : -x - (-(⌊x⌋ : ℚ) - 1) < 1 / 2 := by linarith
        rw [if_neg ha, if_pos hb, if_pos hc]
        ring
      · have hc : ¬ (-x - (-(⌊x⌋ : ℚ) - 1) < 1 / 2) := by intro h; linarith
        have hd : ¬ ((1 : ℚ) / 2 < -x - (-(⌊x⌋ : ℚ) - 1)) := by intro h; linarith
        rw [if_neg ha, if_neg hb, if_neg hc, if_neg hd]
        split_ifs <;> omega

theorem roundToDouble_neg (q : ℚ) : roundToDouble (-q) = -roundToDouble q := by
  unfold roundToDouble
  by_cases h : q = 0
  · simp [h]
  · have h2 : -q ≠ 0 := neg_ne_zero.mpr h
    simp only [if_neg h, if_neg h2, abs_neg, neg_div, roundHalfEven_neg]
    push_cast
    ring

theorem jsTrunc_neg (q : ℚ) : jsTrunc (-q) = -jsTrunc q := by
  unfold jsTrunc
  rcases lt_trichotomy q 0 with h | h | h
  · rw [if_pos (by linarith : (0 : ℚ) ≤ -q), if_neg (by linarith : ¬ (0 : ℚ) ≤ q),
      Int.floor_neg]
  · simp [h]
  · rw [if_neg (by linarith : ¬ (0 : ℚ) ≤ -q), if_pos (by linarith : (0 : ℚ) ≤ q),
      Int.ceil_neg]

/-- Scaling an integer microsecond count below `2 ^ 43 * 1000` in magnitude by
the double `0.001` and truncating gives its integer part of thousandths. -/
theorem jsTrunc_jsMul_milli_int (t : ℤ) (ht : |t| < 8796093022208000) :
    jsTrunc (jsMul (t : ℚ) jsMilli) = t.tdiv 1000 := by
  rcases le_or_lt 0 t with h0 | h0
  · obtain ⟨n, rfl⟩ := Int.eq_ofNat_of_zero_le h0
    have hn : n < 8796093022208000 := by
      rw [abs_of_nonneg h0] at ht
      exact_mod_cast ht
    have := jsTrunc_jsMul_milli n hn
    rw [Int.cast_natCast, this]
    rfl
  · obtain ⟨n, hn⟩ := Int.eq_ofNat_of_zero_le (by omega : 0 ≤ -t)
    have ht2 : t = -(n : ℤ) := by omega
    subst ht2
    have hn2 : n < 8796093022208000 := by
      rw [abs_neg, Nat.abs_cast] at ht
      exact_mod_cast ht
    have := jsTrunc_jsMul_milli n hn2
    have e : jsMul ((-(n : ℤ) : ℤ) : ℚ) jsMilli = -jsMul (n : ℚ) jsMilli := by
      unfold jsMul
      rw [← roundToDouble_neg]
      congr 1
      push_cast
      ring
    rw [e, jsTrunc_neg, this, Int.neg_tdiv]
    rfl

theorem safeIntegerProduct_int (X : Exchange) {o : Option Json} {k : String} {t : ℤ}
    (h : prop o k = some (Json.num t)) (ht : |t| < 8796093022208000) :
    safeIntegerProduct X o k jsMilli = some (t.tdiv 1000) := by
  simp only [safeIntegerProduct, h, asInteger, Option.map_some', jsTrunc_intCast,
    jsTrunc_jsMul_milli_int t ht]

theorem safeIntegerProduct_seconds (X : Exchange) {o : Option Json} {k : String} {s : ℕ}
    (h : prop o k = some (Json.num ((s * 1000000 : ℕ) : ℤ)))
    (hs : s * 1000000 ≤ 9007199254740991) :
    safeIntegerProduct X o k jsMilli = some ((s * 1000 : ℕ) : ℤ) := by
  have e : ((((s * 1000000 : ℕ) : ℤ)) : ℚ) = ((s * 1000000 : ℕ) : ℚ) := Int.cast_natCast _
  simp only [safeIntegerProduct, h, asInteger, Option.map_some', jsTrunc_intCast]
  rw [e, jsTrunc_jsMul_milli_seconds s hs]

theorem safeIntegerProduct_large (X : Exchange) {o : Option Json} {k : String}
    (h : prop o k = some (Json.num ((8841104229798999 : ℤ) : ℚ))) :
    safeIntegerProduct X o k jsMilli = some 8841104229799 := by
  have e : (((8841104229798999 : ℤ)) : ℚ) = (8841104229798999 : ℚ) := by norm_num
  simp only [safeIntegerProduct, h, asInteger, Option.map_some', jsTrunc_intCast]
  rw [e, jsTrunc_jsMul_milli_large]

theorem safeTimestamp_millis (X : Exchange) {o : Option Json} {k : String} {q : ℚ} {n : ℤ}
    (h : prop o k = some (Json.num q)) (hn : q * 1000 = n) :
    safeTimestamp X o k = some n := by
  simp only [safeTimestamp, h, asFloat, Option.map_some', hn, jsTrunc_intCast]

/-! ## parseTicker, parseTrade, parseOHLCV -/

/-- C5: for every raw ticker, the derived fields `(change, average, percentage)`
of `parseTicker` equal the reference definition applied to the parsed `open`
and `close`: with both present, `change = close - open`,
`average = (close + open) / 2` and `percentage = change / open * 100` unless
`open = 0`, in which case it is undefined whatever `close` is; with either one
absent all three are undefined.  For `open = 100`, `close = 110` this gives
`change = 10`, `average = 105`, `percentage = 10`. -/
theorem parseTicker_derived (X : Exchange) (ticker : Option Json) (market : Option Market) :
    ((parseTicker X ticker market).change, (parseTicker X ticker market).average,
        (parseTicker X ticker market).percentage)
        = tickerDerivedSpec (safeFloat X ticker "open") (safeFloat X ticker "close") ∧
      (∀ o c : ℚ, safeFloat X ticker "open" = some o → safeFloat X ticker "close" = some c →
        (parseTicker X ticker market).change = some (c - o) ∧
        (parseTicker X ticker market).average = some ((c + o) / 2) ∧
        (o ≠ 0 → (parseTicker X ticker market).percentage = some ((c - o) / o * 100)) ∧
        (o = 0 → (parseTicker X ticker market).percentage = none)) ∧
      (safeFloat X ticker "open" = none ∨ safeFloat X ticker "close" = none →
        (parseTicker X ticker market).change = none ∧
        (parseTicker X ticker market).average = none ∧
        (parseTicker X ticker market).percentage = none) ∧
      (prop ticker "open" = some (Json.num 100) → prop ticker "close" = some (Json.num 110) →
        (parseTicker X ticker market).change = some 10 ∧
        (parseTicker X ticker market).average = some 105 ∧
        (parseTicker X ticker market).percentage = some 10) := by
  have key : ∀ o c : ℚ, safeFloat X ticker "open" = some o →
      safeFloat X ticker "close" = some c →
      (parseTicker X ticker market).change = some (c - o) ∧
      (parseTicker X ticker market).average = some ((c + o) / 2) ∧
      (o ≠ 0 → (parseTicker X ticker market).percentage = some ((c - o) / o * 100)) ∧
      (o = 0 → (parseTicker X ticker market).percentage = none) := by
    intro o c ho hc
    by_cases h0 : o = 0 <;> simp [parseTicker, ho, hc, h0]
  refine ⟨?_, key, ?_, ?_⟩
  · cases ho : safeFloat X ticker "open" with
    | none => simp [parseTicker, tickerDerivedSpec, ho]
    | some o =>
      cases hc : safeFloat X ticker "close" with
      | none => simp [parseTicker, tickerDerivedSpec, ho, hc]
      | some c =>
        by_cases h0 : o = 0 <;> simp [parseTicker, tickerDerivedSpec, ho, hc, h0]
  · rintro (ho | hc)
    · simp [parseTicker, ho]
    · cases ho : safeFloat X ticker "open" <;> simp [parseTicker, ho, hc]
  · intro ho hc
    obtain ⟨h1, h2, h3, -⟩ := key 100 110 (safeFloat_num X ho) (safeFloat_num X hc)
    refine ⟨?_, ?_, ?_⟩
    · rw [h1]; norm_num
    · rw [h2]; norm_num
    · rw [h3 (by norm_num)]; norm_num

theorem parseTicker_derived_witness :
    prop sampleTicker "open" = some (Json.num 100) ∧
      prop sampleTicker "close" = some (Json.num 110) ∧
      (parseTicker sampleExchange sampleTicker).change = some 10 ∧
      (parseTicker sampleExchange sampleTicker).average = some 105 ∧
      (parseTicker sampleExchange sampleTicker).percentage = some 10 :=
  have ho : prop sampleTicker "open" = some (Json.num 100) := by
    simp [sampleTicker, prop, List.lookup]
  have hc : prop sampleTicker "close" = some (Json.num 110) := by
    simp [sampleTicker, prop, List.lookup]
  ⟨ho, hc, (parseTicker_derived sampleExchange sampleTicker none).2.2.2 ho hc⟩

/-- C6 (the claim at a late timestamp): a ticker and a trade stamped
`8841104229798999` microseconds, a safe integer, are parsed to the millisecond
timestamp `8841104229799`, one above the integer part `8841104229798` of the
thousandth: the product with the double `0.001` rounds up to the next
millisecond. -/
theorem timestamps_late_counterexample :
    prop sampleTickerLate "timestamp" = some (Json.num ((8841104229798999 : ℤ) : ℚ)) ∧
      prop sampleTradeLate "timestamp" = some (Json.num ((8841104229798999 : ℤ) : ℚ)) ∧
      (parseTicker sampleExchange sampleTickerLate).timestamp = some 8841104229799 ∧
      (parseTrade sampleExchange sampleTradeLate).timestamp = some 8841104229799 ∧
      (8841104229798999 : ℤ).tdiv 1000 = 8841104229798 ∧
      (parseTicker sampleExchange sampleTickerLate).timestamp
        ≠ some ((8841104229798999 : ℤ).tdiv 1000) ∧
      (parseTrade sampleExchange sampleTradeLate).timestamp
        ≠ some ((8841104229798999 : ℤ).tdiv 1000) := by
  have h1 : prop sampleTickerLate "timestamp"
      = some (Json.num ((8841104229798999 : ℤ) : ℚ)) := by
    simp [sampleTickerLate, prop, List.lookup]
  have h2 : prop sampleTradeLate "timestamp"
      = some (Json.num ((8841104229798999 : ℤ) : ℚ)) := by
    simp [sampleTradeLate, prop, List.lookup]
  have h3 : (parseTicker sampleExchange sampleTickerLate).timestamp = some 8841104229799 := by
    simpa [parseTicker] using safeIntegerProduct_large sampleExchange h1
  have h4 : (parseTrade sampleExchange sampleTradeLate).timestamp = some 8841104229799 := by
    simpa [parseTrade] using safeIntegerProduct_large sampleExchange h2
  have h5 : (8841104229798999 : ℤ).tdiv 1000 = 8841104229798 := by decide
  refine ⟨h1, h2, h3, h4, h5, ?_, ?_⟩
  · rw [h3, h5]
    decide
  · rw [h4, h5]
    decide

/-- C6 (amended): for every whole number of seconds `s` whose microsecond count
`s * 1000000` is a safe integer (at most `2 ^ 53 - 1`), a ticker and a trade
with `timestamp = s * 1000000` (microseconds) and a candle with `time = s`
(seconds) are all parsed to the millisecond timestamp `s * 1000`; more generally
an integer microsecond `timestamp = t` below `2 ^ 43 * 1000` in magnitude is
parsed to the integer part of `t / 1000` (rounded towards zero) by `parseTicker`
and by `parseTrade`. -/
theorem timestamps_same_millisecond_scale (X : Exchange) (ticker trade candle : Option Json)
    (market : Option Market) :
    (∀ s : ℕ, s * 1000000 ≤ 9007199254740991 →
        prop ticker "timestamp" = some (Json.num ((s * 1000000 : ℕ) : ℤ)) →
        prop trade "timestamp" = some (Json.num ((s * 1000000 : ℕ) : ℤ)) →
        prop candle "time" = some (Json.num ((s : ℤ) : ℚ)) →
        (parseTicker X ticker market).timestamp = some ((s * 1000 : ℕ) : ℤ) ∧
        (parseTrade X trade market).timestamp = some ((s * 1000 : ℕ) : ℤ) ∧
        (parseOHLCV X candle)[0]? = some (some ((((s * 1000 : ℕ) : ℤ) : ℚ)))) ∧
      (∀ t : ℤ, |t| < 8796093022208000 →
        prop ticker "timestamp" = some (Json.num t) →
        (parseTicker X ticker market).timestamp = some (t.tdiv 1000)) ∧
      (∀ t : ℤ, |t| < 8796093022208000 →
        prop trade "timestamp" = some (Json.num t) →
        (parseTrade X trade market).timestamp = some (t.tdiv 1000)) := by
  refine ⟨fun s hs h1 h2 h3 => ⟨?_, ?_, ?_⟩, fun t ht h => ?_, fun t ht h => ?_⟩
  · simpa [parseTicker] using safeIntegerProduct_seconds X h1 hs
  · simpa [parseTrade] using safeIntegerProduct_seconds X h2 hs
  · have hms : ((s : ℤ) : ℚ) * 1000 = (((s * 1000 : ℕ) : ℤ) : ℚ) := by push_cast; ring
    simp [parseOHLCV, safeTimestamp_millis X h3 hms]
  · simpa [parseTicker] using safeIntegerProduct_int X h ht
  · simpa [parseTrade] using safeIntegerProduct_int X h ht

theorem timestamps_same_millisecond_scale_witness :
    1605393120 * 1000000 ≤ 9007199254740991 ∧
      prop sampleTickerOnSecond "timestamp"
        = some (Json.num ((1605393120 * 1000000 : ℕ) : ℤ)) ∧
      prop sampleTradeOnSecond "timestamp"
        = some (Json.num ((1605393120 * 1000000 : ℕ) : ℤ)) ∧
      prop sampleCandle "time" = some (Json.num ((1605393120 : ℕ) : ℤ)) ∧
      (parseTicker sampleExchange sampleTickerOnSecond).timestamp
        = some ((1605393120 * 1000 : ℕ) : ℤ) ∧
      (parseTrade sampleExchange sampleTradeOnSecond).timestamp
        = some ((1605393120 * 1000 : ℕ) : ℤ) ∧
      (parseOHLCV sampleExchange sampleCandle)[0]?
        = some (some ((((1605393120 * 1000 : ℕ) : ℤ) : ℚ))) :=
  have h0 : 1605393120 * 1000000 ≤ 9007199254740991 := by norm_num
  have h1 : prop sampleTickerOnSecond "timestamp"
      = some (Json.num ((1605393120 * 1000000 : ℕ) : ℤ)) := by
    simp [sampleTickerOnSecond, prop, List.lookup]
  have h2 : prop sampleTradeOnSecond "timestamp"
      = some (Json.num ((1605393120 * 1000000 : ℕ) : ℤ)) := by
    simp [sampleTradeOnSecond, prop, List.lookup]
  have h3 : prop sampleCandle "time" = some (Json.num ((1605393120 : ℕ) : ℤ)) := by
    simp [sampleCandle, prop, List.lookup]
  ⟨h0, h1, h2, h3,
    (timestamps_same_millisecond_scale sampleExchange sampleTickerOnSecond
      sampleTradeOnSecond sampleCandle none).1 1605393120 h0 h1 h2 h3⟩

/-- C7: `parseTrade` infers the side from `seller_role` alone: `taker` gives
`sell`, `maker` gives `buy`, and two trades (parsed for any markets) that agree
on `seller_role` get the same side whatever their other fields, `buyer_role`
and `side` included. -/
theorem parseTrade_side (X : Exchange) (trade other : Option Json)
    (market market₂ : Option Market) :
    (safeString X trade "seller_role" = some "taker" →
        (parseTrade X trade market).side = some "sell") ∧
      (safeString X trade "seller_role" = some "maker" →
        (parseTrade X trade market).side = some "buy") ∧
      (safeString X trade "seller_role" = safeString X other "seller_role" →
        (parseTrade X trade market).side = (parseTrade X other market₂).side) := by
  refine ⟨fun h => ?_, fun h => ?_, fun h => ?_⟩
  · simp [parseTrade, h]
  · simp [parseTrade, h]
  · simp only [parseTrade, h]

theorem parseTrade_side_witness :
    safeString sampleExchange sampleTrade "seller_role" = some "taker" ∧
      (parseTrade sampleExchange sampleTrade).side = some "sell" ∧
      safeString sampleExchange sampleTradeOnSecond "seller_role" = some "maker" ∧
      (parseTrade sampleExchange sampleTradeOnSecond).side = some "buy" :=
  have h1 : safeString sampleExchange sampleTrade "seller_role" = some "taker" := by
    simp [safeString, sampleTrade, prop, List.lookup, jsString]
  have h2 : safeString sampleExchange sampleTradeOnSecond "seller_role" = some "maker" := by
    simp [safeString, sampleTradeOnSecond, prop, List.lookup, jsString]
  ⟨h1, (parseTrade_side sampleExchange sampleTrade sampleTrade none none).1 h1, h2,
    (parseTrade_side sampleExchange sampleTradeOnSecond sampleTrade none none).2.1 h2⟩

/-- C8: for every raw trade, the cost returned by `parseTrade` is
`price * amount` when both `price` and `size` are read, and it is undefined
exactly when at least one of them is not. -/
theorem parseTrade_cost (X : Exchange) (trade : Option Json) (market : Option Market) :
    (∀ p a : ℚ, safeFloat X trade "price" = some p → safeFloat X trade "size" = some a →
        (parseTrade X trade market).price = some p ∧
        (parseTrade X trade market).amount = some a ∧
        (parseTrade X trade market).cost = some (p * a)) ∧
      ((parseTrade X trade market).cost = none ↔
        (safeFloat X trade "price" = none ∨ safeFloat X trade "size" = none)) := by
  constructor
  · intro p a hp ha
    simp [parseTrade, hp, ha, mul_comm]
  · cases hp : safeFloat X trade "price" <;> cases ha : safeFloat X trade "size" <;>
      simp [parseTrade, hp, ha]

theorem parseTrade_cost_witness :
    safeFloat sampleExchange sampleTrade "price" = some (31793 / 2) ∧
      safeFloat sampleExchange sampleTrade "size" = some 241 ∧
      (parseTrade sampleExchange sampleTrade).cost = some (31793 / 2 * 241) :=
  have hp : safeFloat sampleExchange sampleTrade "price" = some (31793 / 2) := by
    simp [safeFloat, asFloat, sampleTrade, prop, List.lookup]
  have ha : safeFloat sampleExchange sampleTrade "size" = some 241 := by
    simp [safeFloat, asFloat, sampleTrade, prop, List.lookup]
  ⟨hp, ha, ((parseTrade_cost sampleExchange sampleTrade none).1 _ _ hp ha).2.2⟩

/-- C9: for every raw candle `parseOHLCV` returns exactly six elements, in the
order (timestamp, open, high, low, close, volume): the first is the `time` in
seconds multiplied by 1000 (whenever that is a whole number of milliseconds, as
for every whole second), and the next five are the numbers under `open`,
`high`, `low`, `close` and `volume`, unchanged. -/
theorem parseOHLCV_tuple (X : Exchange) (candle : Option Json) :
    (parseOHLCV X candle).length = 6 ∧
      (∀ (time : ℚ) (ms : ℤ), prop candle "time" = some (Json.num time) →
        time * 1000 = ms → (parseOHLCV X candle)[0]? = some (some (ms : ℚ))) ∧
      (∀ s : ℤ, prop candle "time" = some (Json.num s) →
        (parseOHLCV X candle)[0]? = some (some ((s * 1000 : ℤ) : ℚ))) ∧
      (∀ o : ℚ, prop candle "open" = some (Json.num o) →
        (parseOHLCV X candle)[1]? = some (some o)) ∧
      (∀ h : ℚ, prop candle "high" = some (Json.num h) →
        (parseOHLCV X candle)[2]? = some (some h)) ∧
      (∀ l : ℚ, prop candle "low" = some (Json.num l) →
        (parseOHLCV X candle)[3]? = some (some l)) ∧
      (∀ c : ℚ, prop candle "close" = some (Json.num c) →
        (parseOHLCV X candle)[4]? = some (some c)) ∧
      (∀ v : ℚ, prop candle "volume" = some (Json.num v) →
        (parseOHLCV X candle)[5]? = some (some v)) := by
  refine ⟨rfl, fun time ms h hms => ?_, fun s h => ?_, fun o h => ?_, fun o h => ?_,
    fun o h => ?_, fun o h => ?_, fun o h => ?_⟩
  · simp [parseOHLCV, safeTimestamp_millis X h hms]
  · have hms : ((s : ℤ) : ℚ) * 1000 = ((s * 1000 : ℤ) : ℚ) := by push_cast; ring
    simp [parseOHLCV, safeTimestamp_millis X h hms]
  all_goals simp [parseOHLCV, safeFloat_num X h]

theorem parseOHLCV_tuple_witness :
    prop sampleCandle "time" = some (Json.num ((1605393120 : ℤ) : ℚ)) ∧
      prop sampleCandle "volume" = some (Json.num 565) ∧
      (parseOHLCV sampleExchange sampleCandle).length = 6 ∧
      (parseOHLCV sampleExchange sampleCandle)[0]?
        = some (some (((1605393120 * 1000 : ℤ) : ℚ))) ∧
      (parseOHLCV sampleExchange sampleCandle)[5]? = some (some 565) :=
  have ht : prop sampleCandle "time" = some (Json.num ((1605393120 : ℤ) : ℚ)) := by
    simp [sampleCandle, prop, List.lookup]
  have hv : prop sampleCandle "volume" = some (Json.num 565) := by
    simp [sampleCandle, prop, List.lookup]
  ⟨ht, hv, (parseOHLCV_tuple sampleExchange sampleCandle).1,
    (parseOHLCV_tuple sampleExchange sampleCandle).2.2.1 1605393120 ht,
    (parseOHLCV_tuple sampleExchange sampleCandle).2.2.2.2.2.2.2 565 hv⟩

/-! ## sign -/

theorem checkRequiredCredentials_ok (X : Exchange) {key : String}
    (hkey : X.apiKey = some key) (hne : key ≠ "") :
    checkRequiredCredentials X = Except.ok () := by
  simp [checkRequiredCredentials, hkey, hne]

theorem hmacWithSecret_ok (X : Exchange) {secret : String} (hsecret : X.secret = some secret)
    (auth : String) : hmacWithSecret X auth = Except.ok (X.hmac auth X.secret) := by
  simp [hmacWithSecret, hsecret]

theorem hmacWithSecret_none (X : Exchange) (hsecret : X.secret = none) (auth : String) :
    hmacWithSecret X auth
      = Except.error (Error.TypeError "cannot compute a signature without a secret") := by
  simp [hmacWithSecret, hsecret]

/-- The record `sign` returns for a private call once the credentials check has
passed and the secret is set, branch by branch as in the source. -/
theorem sign_private_ok (X : Exchange) (path method : String)
    (params : List (String × Json)) (headers : Option (List (String × String)))
    (body : Option String) (hcred : checkRequiredCredentials X = Except.ok ())
    {secret : String} (hsecret : X.secret = some secret) :
    sign X path "private" method params headers body =
      Except.ok
        (if method = "GET" ∨ method = "DELETE" then
          if (omit_ params (X.extractParams path)).length ≠ 0 then
            { url := jsStr (apiUrl X "private")
                ++ ("/" ++ X.version ++ "/" ++ X.implodeParams path params)
                ++ ("?" ++ X.urlencode (omit_ params (X.extractParams path)))
              method := method
              body := body
              headers := some
                ([("api-key", jsStr X.apiKey), ("timestamp", toString X.seconds)] ++
                  [("signature", X.hmac
                    (method ++ toString X.seconds
                      ++ ("/" ++ X.version ++ "/" ++ X.implodeParams path params)
                      ++ ("?" ++ X.urlencode (omit_ params (X.extractParams path))))
                    X.secret)]) }
          else
            { url := jsStr (apiUrl X "private")
                ++ ("/" ++ X.version ++ "/" ++ X.implodeParams path params)
              method := method
              body := body
              headers := some
                ([("api-key", jsStr X.apiKey), ("timestamp", toString X.seconds)] ++
                  [("signature", X.hmac
                    (method ++ toString X.seconds
                      ++ ("/" ++ X.version ++ "/" ++ X.implodeParams path params))
                    X.secret)]) }
        else
          { url := jsStr (apiUrl X "private")
              ++ ("/" ++ X.version ++ "/" ++ X.implodeParams path params)
            method := method
            body := some (X.json (omit_ params (X.extractParams path)))
            headers := some
              ([("api-key", jsStr X.apiKey), ("timestamp", toString X.seconds)] ++
                [("Content-Type", "application/json"),
                  ("signature", X.hmac
                    (method ++ toString X.seconds
                      ++ ("/" ++ X.version ++ "/" ++ X.implodeParams path params)
                      ++ X.json (omit_ params (X.extractParams path)))
                    X.secret)]) }) := by
  have h1 : ¬ ("private" = "public") := by decide
  simp only [sign, hcred, h1, if_false, if_true, hmacWithSecret_ok X hsecret]
  split_ifs <;> rfl

/-- With the credentials check passed and the secret unset, a private call
throws inside `this.hmac`. -/
theorem sign_private_no_secret (X : Exchange) (path method : String)
    (params : List (String × Json)) (headers : Option (List (String × String)))
    (body : Option String) (hcred : checkRequiredCredentials X = Except.ok ())
    (hsecret : X.secret = none) :
    sign X path "private" method params headers body
      = Except.error (Error.TypeError "cannot compute a signature without a secret") := by
  have h1 : ¬ ("private" = "public") := by decide
  simp only [sign, hcred, h1, if_false, if_true, hmacWithSecret_none X hsecret]
  split_ifs <;> rfl

/-- C10: for every private call with the API key and the secret set, by any of
the methods GET, DELETE, POST, PUT, `sign` returns a request whose `signature`
header is the hex HMAC-SHA256, keyed by the secret, of the string
`method + timestamp + requestPath`, followed by `'?' + urlencode (query)` when
the method is GET or DELETE and the query is non-empty, and by the JSON encoding
of the query when the method is POST or PUT; here `requestPath` is
`'/' + version + '/' +` the path with its placeholders substituted and `query`
is `params` without the placeholders of the path. -/
theorem sign_private_signature (X : Exchange) (path method key secret : String)
    (params : List (String × Json)) (headers : Option (List (String × String)))
    (body : Option String)
    (hkey : X.apiKey = some key) (hne : key ≠ "") (hsecret : X.secret = some secret)
    (hmethod : method ∈ ["GET", "DELETE", "POST", "PUT"]) :
    ∃ req hs, sign X path "private" method params headers body = Except.ok req ∧
      req.headers = some hs ∧
      hs.lookup "signature"
        = some (X.hmac (authStringSpec X path method params) X.secret) := by
  have hs := sign_private_ok X path method params headers body
    (checkRequiredCredentials_ok X hkey hne) hsecret
  simp only [List.mem_cons, List.mem_singleton, List.mem_nil_iff, or_false] at hmethod
  by_cases hq : (omit_ params (X.extractParams path)).length = 0
  · rcases hmethod with rfl | rfl | rfl | rfl
    · simp [hq] at hs
      exact ⟨_, _, hs, rfl, by simp [authStringSpec, hq, List.lookup]⟩
    · simp [hq] at hs
      exact ⟨_, _, hs, rfl, by simp [authStringSpec, hq, List.lookup]⟩
    · simp at hs
      exact ⟨_, _, hs, rfl, by simp [authStringSpec, List.lookup]⟩
    · simp at hs
      exact ⟨_, _, hs, rfl, by simp [authStringSpec, List.lookup]⟩
  · rcases hmethod with rfl | rfl | rfl | rfl
    · simp [hq] at hs
      exact ⟨_, _, hs, rfl, by simp [authStringSpec, hq, List.lookup]⟩
    · simp [hq] at hs
      exact ⟨_, _, hs, rfl, by simp [authStringSpec, hq, List.lookup]⟩
    · simp at hs
      exact ⟨_, _, hs, rfl, by simp [authStringSpec, List.lookup]⟩
    · simp at hs
      exact ⟨_, _, hs, rfl, by simp [authStringSpec, List.lookup]⟩

theorem sign_private_signature_witness :
    sampleExchange.apiKey = some "key" ∧ sampleExchange.secret = some "k" ∧
      ∃ req hs, sign sampleExchange "orders" "private" "GET" [] none none = Except.ok req ∧
        req.headers = some hs ∧
        hs.lookup "signature"
          = some (sampleExchange.hmac (authStringSpec sampleExchange "orders" "GET" [])
              sampleExchange.secret) :=
  ⟨rfl, rfl, sign_private_signature sampleExchange "orders" "GET" "key" "k" [] none none rfl
    (by decide) rfl (by decide)⟩

/-- C11: for every private call with the API key and the secret set, `sign`
returns headers
with `api-key` (the key), `timestamp` (the clock's whole Unix seconds in
decimal) and `signature`.  For POST and PUT the headers are exactly `api-key`,
`timestamp`, `Content-Type: application/json`, `signature`, the body is the
JSON encoding of the query and the url is the base url followed by the request
path, without a query string.  For GET and DELETE the headers are exactly
`api-key`, `timestamp`, `signature` (no `Content-Type`) and the body is the one
passed in. -/
theorem sign_private_envelope (X : Exchange) (path method key secret : String)
    (params : List (String × Json)) (headers : Option (List (String × String)))
    (body : Option String)
    (hkey : X.apiKey = some key) (hne : key ≠ "") (hsecret : X.secret = some secret) :
    ∃ req hs, sign X path "private" method params headers body = Except.ok req ∧
      req.headers = some hs ∧
      hs.lookup "api-key" = some key ∧
      hs.lookup "timestamp" = some (toString X.seconds) ∧
      (hs.lookup "signature").isSome = true ∧
      (method = "POST" ∨ method = "PUT" →
        hs.map Prod.fst = ["api-key", "timestamp", "Content-Type", "signature"] ∧
        hs.lookup "Content-Type" = some "application/json" ∧
        req.body = some (X.json (omit_ params (X.extractParams path))) ∧
        req.url = X.apiPrivate ++ ("/" ++ X.version ++ "/" ++ X.implodeParams path params)) ∧
      (method = "GET" ∨ method = "DELETE" →
        hs.map Prod.fst = ["api-key", "timestamp", "signature"] ∧
        hs.lookup "Content-Type" = none ∧
        req.body = body) := by
  have hs := sign_private_ok X path method params headers body
    (checkRequiredCredentials_ok X hkey hne) hsecret
  by_cases hm : method = "GET" ∨ method = "DELETE"
  · have hpost : ¬ (method = "POST" ∨ method = "PUT") := by
      rcases hm with rfl | rfl <;> decide
    by_cases hq : (omit_ params (X.extractParams path)).length = 0
    · simp only [hm, hq, if_true, ne_eq, not_true_eq_false, if_false] at hs
      exact ⟨_, _, hs, rfl, by simp [List.lookup, hkey, jsStr], by simp [List.lookup],
        by simp [List.lookup], fun h => absurd h hpost, fun _ => ⟨rfl, by simp [List.lookup], rfl⟩⟩
    · simp only [hm, hq, if_true, ne_eq, not_false_eq_true] at hs
      exact ⟨_, _, hs, rfl, by simp [List.lookup, hkey, jsStr], by simp [List.lookup],
        by simp [List.lookup], fun h => absurd h hpost, fun _ => ⟨rfl, by simp [List.lookup], rfl⟩⟩
  · simp only [hm, if_false] at hs
    exact ⟨_, _, hs, rfl, by simp [List.lookup, hkey, jsStr], by simp [List.lookup],
      by simp [List.lookup], fun _ => ⟨rfl, by simp [List.lookup], rfl,
        by simp [apiUrl, jsStr]⟩, fun h => absurd h hm⟩

theorem sign_private_envelope_witness :
    sampleExchange.apiKey = some "key" ∧ sampleExchange.secret = some "k" ∧
      ∃ req hs, sign sampleExchange "orders" "private" "POST" [] none none = Except.ok req ∧
        req.headers = some hs ∧
        hs.lookup "api-key" = some "key" ∧
        hs.lookup "timestamp" = some (toString sampleExchange.seconds) ∧
        hs.lookup "Content-Type" = some "application/json" :=
  ⟨rfl, rfl,
    (sign_private_envelope sampleExchange "orders" "POST" "key" "k" [] none none rfl
      (by decide) rfl).imp fun _ h => h.imp fun _ h =>
        ⟨h.1, h.2.1, h.2.2.1, h.2.2.2.1, (h.2.2.2.2.2.1 (Or.inl rfl)).2.1⟩⟩

/-- C12: for every public call `sign` succeeds, whatever the credentials, with
url `baseUrl + '/' + version + '/' +` the path with its placeholders
substituted, followed by `'?' + urlencode (query)` exactly when the remaining
query is non-empty.  It adds no headers: the returned headers and body are the
arguments passed in, so no headers are returned when none are passed.  The
result does not depend on the API key, the secret, the clock or the hash
service: nothing is signed and no credentials are needed. -/
theorem sign_public (X : Exchange) (path method : String) (params : List (String × Json))
    (headers : Option (List (String × String))) (body : Option String) :
    (∃ req, sign X path "public" method params headers body = Except.ok req ∧
      req.method = method ∧ req.headers = headers ∧ req.body = body ∧
      (omit_ params (X.extractParams path) = [] →
        req.url = X.apiPublic ++ "/" ++ X.version ++ "/" ++ X.implodeParams path params) ∧
      (omit_ params (X.extractParams path) ≠ [] →
        req.url = X.apiPublic ++ "/" ++ X.version ++ "/" ++ X.implodeParams path params
          ++ "?" ++ X.urlencode (omit_ params (X.extractParams path)))) ∧
      (∃ req, sign X path "public" method params = Except.ok req ∧ req.headers = none) ∧
      (∀ (apiKey secret : Option String) (seconds : ℕ) (hmac : String → Option String → String),
        sign { X with apiKey := apiKey, secret := secret, seconds := seconds, hmac := hmac }
            path "public" method params headers body
          = sign X path "public" method params headers body) := by
  refine ⟨?_, ?_, fun _ _ _ _ => rfl⟩
  · by_cases hq : omit_ params (X.extractParams path) = []
    · exact ⟨_, by simp [sign, hq]; rfl, rfl, rfl, rfl,
        fun _ => by simp [apiUrl, jsStr, String.append_assoc], fun h => absurd hq h⟩
    · have hlen : (omit_ params (X.extractParams path)).length ≠ 0 := by
        simpa [List.length_eq_zero] using hq
      exact ⟨_, by simp only [sign, hlen, if_true, ne_eq, not_false_eq_true]; rfl,
        rfl, rfl, rfl, fun h => absurd h hq,
        fun _ => by simp [apiUrl, jsStr, String.append_assoc]⟩
  · by_cases hq : (omit_ params (X.extractParams path)).length = 0
    · exact ⟨_, by simp [sign, hq]; rfl, rfl⟩
    · exact ⟨_, by simp only [sign, hq, if_true, ne_eq, not_false_eq_true]; rfl, rfl⟩

theorem sign_public_witness :
    omit_ [] (sampleExchange.extractParams "products") = [] ∧
      ∃ req, sign sampleExchange "products" "public" "GET" [] none none = Except.ok req ∧
        req.headers = none ∧
        req.url = "https://api.delta.exchange/v2/products" :=
  have hq : omit_ [] (sampleExchange.extractParams "products") = [] := rfl
  ⟨hq,
    (sign_public sampleExchange "products" "GET" [] none none).1.imp fun _ h =>
      ⟨h.1, h.2.2.1, (h.2.2.2.2.1 hq).trans (by decide)⟩⟩

theorem checkRequiredCredentials_congr {X Y : Exchange} (h : sameSigner X Y) :
    checkRequiredCredentials X = checkRequiredCredentials Y := by
  obtain ⟨hid, -, -, hkey, -⟩ := h
  simp [checkRequiredCredentials, hid, hkey]

/-- C13: signing is deterministic.  Two invocations of `sign` on a private
endpoint with the same method, path and params, by exchange instances with the
same signing configuration, API key, secret and clock reading, return the same
url and the same headers (the signature among them), whatever headers and body
arguments are passed and whatever else differs between the instances; the
whole result, body included, is the same when the body arguments coincide (the
body of a GET or DELETE call is the one passed in) or the method is neither
GET nor DELETE. -/
theorem sign_private_deterministic (X Y : Exchange) (path method : String)
    (params : List (String × Json)) (headers₁ headers₂ : Option (List (String × String)))
    (body₁ body₂ : Option String) (hXY : sameSigner X Y) :
    (sign X path "private" method params headers₁ body₁).map
        (fun req => (req.url, req.method, req.headers))
      = (sign Y path "private" method params headers₂ body₂).map
        (fun req => (req.url, req.method, req.headers)) ∧
    (body₁ = body₂ ∨ (method ≠ "GET" ∧ method ≠ "DELETE") →
      sign X path "private" method params headers₁ body₁
        = sign Y path "private" method params headers₂ body₂) := by
  have hc := checkRequiredCredentials_congr hXY
  obtain ⟨hid, hv, hurl, hkey, hsec, hclock, hue, hjs, hhm, him, hex⟩ := hXY
  cases hcy : checkRequiredCredentials Y with
  | error e =>
    have hcx := hc.trans hcy
    have h1 : ¬ ("private" = "public") := by decide
    have hX : sign X path "private" method params headers₁ body₁ = Except.error e := by
      simp only [sign, h1, if_false, if_true, hcx]
    have hY : sign Y path "private" method params headers₂ body₂ = Except.error e := by
      simp only [sign, h1, if_false, if_true, hcy]
    rw [hX, hY]
    exact ⟨rfl, fun _ => rfl⟩
  | ok u =>
    cases u
    have hcx := hc.trans hcy
    have hap : apiUrl X "private" = apiUrl Y "private" := by simp [apiUrl, hurl]
    cases hsy : Y.secret with
    | none =>
      rw [sign_private_no_secret X path method params headers₁ body₁ hcx (hsec.trans hsy),
        sign_private_no_secret Y path method params headers₂ body₂ hcy hsy]
      exact ⟨rfl, fun _ => rfl⟩
    | some secret =>
      rw [sign_private_ok X path method params headers₁ body₁ hcx (hsec.trans hsy),
        sign_private_ok Y path method params headers₂ body₂ hcy hsy]
      simp only [hv, hap, hkey, hsec, hclock, hue, hjs, hhm, him, hex]
      constructor
      · split_ifs <;> rfl
      · rintro (rfl | ⟨hg, hd⟩)
        · rfl
        · have hm : ¬ (method = "GET" ∨ method = "DELETE") := by
            rintro (h | h)
            · exact hg h
            · exact hd h
          simp only [hm, if_false]

theorem sign_private_deterministic_witness :
    sameSigner sampleExchange sampleExchangeOther ∧
      sign sampleExchange "orders" "private" "GET" [] none none
        = sign sampleExchangeOther "orders" "private" "GET" []
            (some [("X-Custom", "1")]) none ∧
      (sign sampleExchange "orders" "private" "GET" [] none none).map
          (fun req => req.headers.map fun hs => hs.lookup "signature")
        = Except.ok (some (some "GET1000000000/v2/orders")) :=
  have hs : sameSigner sampleExchange sampleExchangeOther :=
    ⟨rfl, rfl, rfl, rfl, rfl, rfl, rfl, rfl, rfl, rfl, rfl⟩
  ⟨hs,
    (sign_private_deterministic sampleExchange sampleExchangeOther "orders" "GET" []
      none (some [("X-Custom", "1")]) none none hs).2 (Or.inl rfl),
    by
      rw [@sign_private_ok sampleExchange "orders" "GET" [] none none
        (@checkRequiredCredentials_ok sampleExchange "key" rfl (by decide)) "k" rfl]
      rfl⟩

/-- C14: on a private call `sign` fails with the authentication error for
missing credentials when the API key is absent or empty.  The failure comes
before any timestamp, signature or header is computed: it is the same whatever
the clock, the hash, the URL-encoding and the JSON services are.  A public call
succeeds even then. -/
theorem sign_private_missing_key (X : Exchange) (path method : String)
    (params : List (String × Json)) (headers : Option (List (String × String)))
    (body : Option String) (hkey : X.apiKey = none ∨ X.apiKey = some "") :
    (∃ message, sign X path "private" method params headers body
        = Except.error (Error.AuthenticationError message)) ∧
      (∀ (seconds : ℕ) (hmac : String → Option String → String)
          (urlencode json : List (String × Json) → String),
        sign { X with seconds := seconds, hmac := hmac, urlencode := urlencode, json := json }
            path "private" method params headers body
          = sign X path "private" method params headers body) ∧
      (∃ req, sign X path "public" method params headers body = Except.ok req) := by
  have h1 : ¬ ("private" = "public") := by decide
  have hcred : ∀ Y : Exchange, Y.id = X.id → Y.apiKey = X.apiKey →
      checkRequiredCredentials Y
        = Except.error (Error.AuthenticationError (X.id ++ " requires apiKey credential")) := by
    intro Y hid hk
    rcases hkey with h | h <;> simp [checkRequiredCredentials, hid, hk, h]
  have hfail : ∀ Y : Exchange, Y.id = X.id → Y.apiKey = X.apiKey →
      sign Y path "private" method params headers body
        = Except.error (Error.AuthenticationError (X.id ++ " requires apiKey credential")) := by
    intro Y hid hk
    simp only [sign, h1, if_false, if_true, hcred Y hid hk]
  refine ⟨⟨_, hfail X rfl rfl⟩, fun seconds hmac urlencode json => ?_, ?_⟩
  · rw [hfail X rfl rfl]
    exact hfail
      { X with seconds := seconds, hmac := hmac, urlencode := urlencode, json := json }
      rfl rfl
  · exact (sign_public X path method params headers body).1.imp fun _ h => h.1

theorem sign_private_missing_key_witness :
    sampleExchangeNoKey.apiKey = none ∧
      (∃ message, sign sampleExchangeNoKey "orders" "private" "GET" [] none none
        = Except.error (Error.AuthenticationError message)) ∧
      (∃ req, sign sampleExchangeNoKey "products" "public" "GET" [] none none
        = Except.ok req) :=
  ⟨rfl,
    (sign_private_missing_key sampleExchangeNoKey "orders" "GET" [] none none
      (Or.inl rfl)).1,
    (sign_private_missing_key sampleExchangeNoKey "products" "GET" [] none none
      (Or.inl rfl)).2.2⟩

/-! ## handleErrors -/

/-- With an `error.code` in the response, `handleErrors` raises the class the
exact table gives for the code, or `ExchangeError` when the code is not a key;
the message is the exchange id, a space and the body. -/
theorem handleErrors_of_code (X : Exchange) (code : ℤ) (reason url method : String)
    (headers : Option (List (String × String))) (body : String) (response : Json)
    (requestHeaders : Option (List (String × String))) (requestBody : Option String)
    {errorCode : String} (h : responseErrorCode X response = some errorCode) :
    handleErrors X code reason url method headers body (some response) requestHeaders
        requestBody
      = Except.error
          (((exceptionsExact.lookup errorCode).getD Error.ExchangeError)
            (X.id ++ " " ++ body)) := by
  unfold responseErrorCode at h
  simp only [handleErrors, h, throwExactlyMatchedException, throwBroadlyMatchedException,
    exceptionsBroad, List.find?_nil]
  cases exceptionsExact.lookup errorCode <;> rfl

theorem exceptionsExact_lookup_eq_none {errorCode : String}
    (h : ∀ p ∈ classifiedCodesSpec, errorCode ≠ p.1) :
    exceptionsExact.lookup errorCode = none := by
  simp only [classifiedCodesSpec, List.mem_cons, List.mem_singleton, List.mem_nil_iff,
    or_false, forall_eq_or_imp, forall_eq] at h
  obtain ⟨h1, h2, h3, h4, h5, h6, h7, h8, h9, h10, h11, h12⟩ := h
  have key : ∀ k : String, errorCode ≠ k → (errorCode == k) = false :=
    fun k hk => beq_eq_false_iff_ne.mpr hk
  simp only [exceptionsExact, List.lookup, key _ h1, key _ h2, key _ h3, key _ h4,
    key _ h5, key _ h6, key _ h7, key _ h8, key _ h9, key _ h10, key _ h11, key _ h12]

theorem exceptionsExact_lookup_classified {p : String × (String → Error)}
    (hp : p ∈ classifiedCodesSpec) : exceptionsExact.lookup p.1 = some p.2 := by
  simp only [classifiedCodesSpec, List.mem_cons, List.mem_singleton, List.mem_nil_iff,
    or_false] at hp
  rcases hp with rfl | rfl | rfl | rfl | rfl | rfl | rfl | rfl | rfl | rfl | rfl | rfl <;> rfl

theorem exceptionsExact_message (errorCode message : String) :
    (((exceptionsExact.lookup errorCode).getD Error.ExchangeError) message).message
      = message := by
  simp only [exceptionsExact, List.lookup]
  repeat' split
  all_goals rfl

theorem sample_error_codes :
    responseErrorCode sampleExchange sampleErrorResponse = some "insufficient_margin" ∧
      responseErrorCode sampleExchange sampleUnknownErrorResponse
        = some "insufficient_margin_call" := by
  constructor <;>
    simp [responseErrorCode, safeString, safeValue, prop, List.lookup, sampleErrorResponse,
      sampleUnknownErrorResponse, jsString]

/-- C15: when the `error.code` of a response is one of the twelve codes of the
exact table, `handleErrors` raises exactly the category assigned to it
(`insufficient_margin` gives `InsufficientFunds`, ..., `open_order_not_found`
gives `OrderNotFound`, as listed in `classifiedCodesSpec`).  The match is on
the whole code: a code that differs from all twelve, even one that contains one
of them, is given none of these categories but the generic `ExchangeError`. -/
theorem handleErrors_classified (X : Exchange) (code : ℤ) (reason url method : String)
    (headers : Option (List (String × String))) (body : String) (response : Json)
    (requestHeaders : Option (List (String × String))) (requestBody : Option String) :
    (∀ p ∈ classifiedCodesSpec, responseErrorCode X response = some p.1 →
        handleErrors X code reason url method headers body (some response) requestHeaders
            requestBody
          = Except.error (p.2 (X.id ++ " " ++ body))) ∧
      (∀ errorCode : String, responseErrorCode X response = some errorCode →
        (∀ p ∈ classifiedCodesSpec, errorCode ≠ p.1) →
        handleErrors X code reason url method headers body (some response) requestHeaders
            requestBody
          = Except.error (Error.ExchangeError (X.id ++ " " ++ body))) := by
  constructor
  · intro p hp h
    rw [handleErrors_of_code X code reason url method headers body response requestHeaders
      requestBody h, exceptionsExact_lookup_classified hp]
    rfl
  · intro errorCode h hne
    rw [handleErrors_of_code X code reason url method headers body response requestHeaders
      requestBody h, exceptionsExact_lookup_eq_none hne]
    rfl

theorem handleErrors_classified_witness :
    ("insufficient_margin", Error.InsufficientFunds) ∈ classifiedCodesSpec ∧
      responseErrorCode sampleExchange sampleErrorResponse = some "insufficient_margin" ∧
      handleErrors sampleExchange 400 "Bad Request" "https://api.delta.exchange/v2/orders"
          "POST" none "raw body" (some sampleErrorResponse) none none
        = Except.error (Error.InsufficientFunds "delta raw body") :=
  have hp : ("insufficient_margin", Error.InsufficientFunds) ∈ classifiedCodesSpec :=
    List.mem_cons_self _ _
  ⟨hp, sample_error_codes.1,
    (handleErrors_classified sampleExchange 400 "Bad Request"
      "https://api.delta.exchange/v2/orders" "POST" none "raw body" sampleErrorResponse
      none none).1 _ hp sample_error_codes.1⟩

/-- C16: when the `error.code` of a response is not a key of the exact table,
`handleErrors` raises the generic `ExchangeError`, with message the exchange id,
a space and the unmodified body; and for every code, recognised or not, the
error raised carries exactly that message. -/
theorem handleErrors_unclassified (X : Exchange) (code : ℤ) (reason url method : String)
    (headers : Option (List (String × String))) (body : String) (response : Json)
    (requestHeaders : Option (List (String × String))) (requestBody : Option String)
    (errorCode : String) (h : responseErrorCode X response = some errorCode) :
    (exceptionsExact.lookup errorCode = none →
        handleErrors X code reason url method headers body (some response) requestHeaders
            requestBody
          = Except.error (Error.ExchangeError (X.id ++ " " ++ body))) ∧
      (∃ e, handleErrors X code reason url method headers body (some response)
            requestHeaders requestBody = Except.error e ∧
          e.message = X.id ++ " " ++ body) := by
  have hcode := handleErrors_of_code X code reason url method headers body response
    requestHeaders requestBody h
  constructor
  · intro hnone
    rw [hcode, hnone]
    rfl
  · exact ⟨_, hcode, exceptionsExact_message _ _⟩

theorem handleErrors_unclassified_witness :
    responseErrorCode sampleExchange sampleUnknownErrorResponse
        = some "insufficient_margin_call" ∧
      exceptionsExact.lookup "insufficient_margin_call" = none ∧
      handleErrors sampleExchange 400 "Bad Request" "https://api.delta.exchange/v2/orders"
          "POST" none "raw body" (some sampleUnknownErrorResponse) none none
        = Except.error (Error.ExchangeError "delta raw body") :=
  have hnone : exceptionsExact.lookup "insufficient_margin_call" = none := rfl
  ⟨sample_error_codes.2, hnone,
    (handleErrors_unclassified sampleExchange 400 "Bad Request"
      "https://api.delta.exchange/v2/orders" "POST" none "raw body"
      sampleUnknownErrorResponse none none _ sample_error_codes.2).1 hnone⟩

/-! ## Lemmas on dictionaries -/

theorem lookup_cons_ite {α : Type} (rest : List (String × α)) (k k' : String) (v : α) :
    List.lookup k' ((k, v) :: rest) = if k' = k then some v else rest.lookup k' := by
  by_cases h : k' = k
  · subst h
    simp [List.lookup]
  · have hb : (k' == k) = false := beq_eq_false_iff_ne.mpr h
    simp only [List.lookup, hb, if_neg h]

theorem lookup_setKey {α : Type} (d : List (String × α)) (k k' : String) (v : α) :
    (setKey d k v).lookup k' = if k' = k then some v else d.lookup k' := by
  induction d with
  | nil =>
    simp only [setKey, lookup_cons_ite]
  | cons kv rest ih =>
    obtain ⟨k₀, v₀⟩ := kv
    by_cases h0 : k₀ = k
    · subst h0
      simp only [setKey, if_true, lookup_cons_ite]
      split_ifs <;> rfl
    · simp only [setKey, if_neg h0, lookup_cons_ite, ih]
      by_cases h : k' = k
      · subst h
        have h1 : ¬ k' = k₀ := fun e => h0 e.symm
        simp only [if_neg h1, if_true]
      · simp only [if_neg h]

theorem lookup_setKey_self {α : Type} (d : List (String × α)) (k : String) (v : α) :
    (setKey d k v).lookup k = some v := by
  rw [lookup_setKey, if_pos rfl]

theorem lookup_setKey_of_ne {α : Type} (d : List (String × α)) {k k' : String} (v : α)
    (h : k' ≠ k) : (setKey d k v).lookup k' = d.lookup k' := by
  rw [lookup_setKey, if_neg h]

theorem lookup_extend_of_not_mem {α : Type} (a b : List (String × α)) (k : String)
    (h : ∀ kv ∈ b, kv.1 ≠ k) : (extend a b).lookup k = a.lookup k := by
  unfold extend
  induction b generalizing a with
  | nil => rfl
  | cons kv rest ih =>
    rw [List.foldl_cons, ih _ fun kv' hkv' => h kv' (List.mem_cons_of_mem _ hkv')]
    exact lookup_setKey_of_ne a _ fun e => h kv (List.mem_cons_self _ _) e.symm

/-! ## createOrder -/

theorem sample_loadMarkets :
    loadMarkets sampleExchange sampleWorld.superLoadMarkets false sampleState
      = Except.ok { sampleState with currenciesByNumericId := some [] } := rfl

/-- C17 (counterexample): a market order created with the extra params
`{ limit_price: '9200' }` sends one request, and that request carries the
`limit_price` field although the type is not `limit`. -/
theorem createOrder_params_counterexample :
    (sentRequests
        ((createOrder sampleExchange "BTC/USDT" "market" "buy" 10 none
          [("limit_price", some (Json.str "9200"))]).run
            sampleExchange sampleWorld sampleState).1).map
        (fun sent => (sent.1, sent.2.lookup "limit_price"))
      = [("privatePostOrders", some (some (Json.str "9200")))] := by
  simp [createOrder, Call.run, sample_loadMarkets, sampleState, sampleWorld, sentRequests,
    createOrderRequest, extend, setKey, List.lookup]

/-- C17 (amended): every `createOrder` call that resolves its market loads the
catalog and then sends exactly one request, to `privatePostOrders`: the request
built from the arguments with the extra params merged over it.  For each of the
fields below that the extra params do not themselves carry, the request sent
has `product_id` = the market's numericId, `size` = the amount brought to
precision, `side` = the given side, `order_type` = `type + '_order'`, and it
contains a `limit_price` field if and only if `type` is `limit` (then the price
brought to precision). -/
theorem createOrder_request (X : Exchange) (W : World) (st st₁ : State) (market : Market)
    (symbol type side : String) (amount : ℚ) (price : Option ℚ) (params : Dict)
    (hload : loadMarkets X W.superLoadMarkets false st = Except.ok st₁)
    (hmarket : st₁.market symbol = Except.ok market) :
    ∃ sent : Dict,
      ((createOrder X symbol type side amount price params).run X W st).1
        = [Effect.loadMarkets false, Effect.request "privatePostOrders" sent] ∧
      sent = extend (createOrderRequest st₁ market symbol type side amount price) params ∧
      ((∀ kv ∈ params, kv.1 ≠ "product_id") →
        sent.lookup "product_id" = some (market.numericId.map fun (n : ℤ) => Json.num n)) ∧
      ((∀ kv ∈ params, kv.1 ≠ "size") →
        sent.lookup "size" = some (some (Json.str (st₁.amountToPrecision symbol amount)))) ∧
      ((∀ kv ∈ params, kv.1 ≠ "side") →
        sent.lookup "side" = some (some (Json.str side))) ∧
      ((∀ kv ∈ params, kv.1 ≠ "order_type") →
        sent.lookup "order_type" = some (some (Json.str (type ++ "_order")))) ∧
      ((∀ kv ∈ params, kv.1 ≠ "limit_price") →
        ((sent.lookup "limit_price").isSome = true ↔ type = "limit") ∧
        (type = "limit" →
          sent.lookup "limit_price"
            = some (some (Json.str (st₁.priceToPrecision symbol price))))) := by
  refine ⟨extend (createOrderRequest st₁ market symbol type side amount price) params,
    ?_, rfl, ?_, ?_, ?_, ?_, ?_⟩
  · simp only [createOrder, Call.run, hload, hmarket]
    cases W.respond "privatePostOrders"
      (extend (createOrderRequest st₁ market symbol type side amount price) params) <;> rfl
  · intro h
    rw [lookup_extend_of_not_mem _ _ _ h]
    unfold createOrderRequest
    split_ifs <;> simp [lookup_setKey, lookup_cons_ite]
  · intro h
    rw [lookup_extend_of_not_mem _ _ _ h]
    unfold createOrderRequest
    split_ifs <;> simp [lookup_setKey, lookup_cons_ite]
  · intro h
    rw [lookup_extend_of_not_mem _ _ _ h]
    unfold createOrderRequest
    split_ifs <;> simp [lookup_setKey, lookup_cons_ite]
  · intro h
    rw [lookup_extend_of_not_mem _ _ _ h]
    unfold createOrderRequest
    split_ifs <;> simp [lookup_setKey, lookup_cons_ite]
  · intro h
    rw [lookup_extend_of_not_mem _ _ _ h]
    unfold createOrderRequest
    by_cases ht : type = "limit"
    · simp [ht, lookup_setKey]
    · simp [ht, lookup_cons_ite]

theorem createOrder_request_witness :
    loadMarkets sampleExchange sampleWorld.superLoadMarkets false sampleState
        = Except.ok { sampleState with currenciesByNumericId := some [] } ∧
      sampleState.market "BTC/USDT" = Except.ok (parseMarket sampleExchange samplePerpetual) ∧
      ∃ sent : Dict,
        ((createOrder sampleExchange "BTC/USDT" "limit" "buy" 10 (some 9200) []).run
            sampleExchange sampleWorld sampleState).1
          = [Effect.loadMarkets false, Effect.request "privatePostOrders" sent] ∧
        sent.lookup "order_type" = some (some (Json.str "limit_order")) ∧
        sent.lookup "limit_price" = some (some (Json.str "9200")) :=
  ⟨sample_loadMarkets, rfl,
    (createOrder_request sampleExchange sampleWorld sampleState _ _ "BTC/USDT" "limit"
      "buy" 10 (some 9200) [] sample_loadMarkets rfl).imp fun _ h =>
        ⟨h.1, h.2.2.2.2.2.1 (fun _ hkv => absurd hkv (List.not_mem_nil _)),
          (h.2.2.2.2.2.2 (fun _ hkv => absurd hkv (List.not_mem_nil _))).2 rfl⟩⟩

/-! ## cancelOrder, cancelAllOrders -/

/-- C18: `cancelOrder` and `cancelAllOrders` called without a symbol throw
`ArgumentsRequired` as their first step, for every id and params: run in any
surroundings from any state they perform no effect (no catalog load, no request)
and leave the state as it was. -/
theorem cancel_without_symbol (X : Exchange) (W : World) (st : State) (id : String)
    (params : Dict) :
    (cancelOrder X id none params
        = Call.fail
            (Error.ArgumentsRequired (X.id ++ " cancelOrder() requires a symbol argument")) ∧
      (cancelOrder X id none params).run X W st
        = ([], st, Except.error
            (Error.ArgumentsRequired (X.id ++ " cancelOrder() requires a symbol argument")))) ∧
    (cancelAllOrders X none params
        = Call.fail
            (Error.ArgumentsRequired (X.id ++ " cancelAllOrders requires a symbol argument")) ∧
      (cancelAllOrders X none params).run X W st
        = ([], st, Except.error
            (Error.ArgumentsRequired
              (X.id ++ " cancelAllOrders requires a symbol argument")))) :=
  ⟨⟨rfl, rfl⟩, ⟨rfl, rfl⟩⟩

/-! ## fetchCurrencies -/

theorem mem_setKey {α : Type} {d : List (String × α)} {k : String} {v : α}
    {x : String × α} (h : x ∈ setKey d k v) : x ∈ d ∨ x = (k, v) := by
  induction d with
  | nil =>
    simp only [setKey, List.mem_singleton] at h
    exact Or.inr h
  | cons kv rest ih =>
    obtain ⟨k₀, v₀⟩ := kv
    by_cases h0 : k₀ = k
    · simp only [setKey, if_pos h0, List.mem_cons] at h
      rcases h with h | h
      · exact Or.inr h
      · exact Or.inl (List.mem_cons_of_mem _ h)
    · simp only [setKey, if_neg h0, List.mem_cons] at h
      rcases h with h | h
      · exact Or.inl (h ▸ List.mem_cons_self _ _)
      · rcases ih h with h | h
        · exact Or.inl (List.mem_cons_of_mem _ h)
        · exact Or.inr h

theorem mem_fetchCurrencies {X : Exchange} {response : Option Json}
    {entry : String × Currency} (h : entry ∈ fetchCurrencies X response) :
    entry.2.info ∈ rawProducts response ∧ entry.2 = parseCurrency X entry.2.info := by
  unfold fetchCurrencies at h
  have key : ∀ (rows : List Json) (init : List (String × Currency)),
      entry ∈ rows.foldl
        (fun result currency =>
          setKey result (jsStr (parseCurrency X currency).code) (parseCurrency X currency))
        init →
      entry ∈ init ∨ ∃ currency ∈ rows, entry.2 = parseCurrency X currency := by
    intro rows
    induction rows with
    | nil => exact fun init h => Or.inl h
    | cons row rest ih =>
      intro init h
      rw [List.foldl_cons] at h
      rcases ih _ h with h | ⟨c, hc, hcur⟩
      · rcases mem_setKey h with h | h
        · exact Or.inl h
        · exact Or.inr ⟨row, List.mem_cons_self _ _, by rw [h]⟩
      · exact Or.inr ⟨c, List.mem_cons_of_mem _ hc, hcur⟩
  rcases key _ _ h with h | ⟨c, hc, hcur⟩
  · exact absurd h (List.not_mem_nil _)
  · have hinfo : entry.2.info = c := by rw [hcur]; rfl
    rw [hinfo]
    exact ⟨hc, hcur⟩

theorem parseCurrency_active (X : Exchange) (currency : Json) :
    (parseCurrency X currency).active = true ↔
      (safeString X (some currency) "deposit_status" = some "enabled" ∧
        safeString X (some currency) "withdrawal_status" = some "enabled") := by
  simp [parseCurrency]

/-! ## loadMarkets and fetchBalance -/

theorem lookup_foldl_setKey_of_forall_ne {α β : Type} (key : β → String) (val : β → α)
    (rows : List β) (init : List (String × α)) (k : String)
    (h : ∀ x ∈ rows, key x ≠ k) :
    (rows.foldl (fun out x => setKey out (key x) (val x)) init).lookup k = init.lookup k := by
  induction rows generalizing init with
  | nil => rfl
  | cons r rest ih =>
    rw [List.foldl_cons, ih _ fun x hx => h x (List.mem_cons_of_mem _ hx)]
    exact lookup_setKey_of_ne init _ fun e => h r (List.mem_cons_self _ _) e.symm

/-- In a dictionary filled by successive assignments, a key holds the value of
the last row assigned under it. -/
theorem lookup_foldl_setKey_of_last {α β : Type} (key : β → String) (val : β → α)
    (rows : List β) (init : List (String × α)) (i : ℕ) (row : β)
    (hrow : rows[i]? = some row)
    (hlast : ∀ (j : ℕ) (row' : β), i < j → rows[j]? = some row' → key row' ≠ key row) :
    (rows.foldl (fun out x => setKey out (key x) (val x)) init).lookup (key row)
      = some (val row) := by
  induction rows generalizing init i with
  | nil => simp at hrow
  | cons r rest ih =>
    rw [List.foldl_cons]
    cases i with
    | zero =>
      simp only [List.getElem?_cons_zero, Option.some.injEq] at hrow
      subst hrow
      rw [lookup_foldl_setKey_of_forall_ne, lookup_setKey_self]
      intro x hx
      obtain ⟨j, hj⟩ := List.getElem?_of_mem hx
      exact hlast (j + 1) x (Nat.succ_pos j) (by simpa using hj)
    | succ i =>
      simp only [List.getElem?_cons_succ] at hrow
      exact ih _ i hrow fun j row' hij hj =>
        hlast (j + 1) row' (Nat.succ_lt_succ hij) (by simpa using hj)

/-- In a dictionary filled by successive assignments, a key under which every
row assigns the same value holds that value. -/
theorem lookup_foldl_setKey_of_unique {α β : Type} (key : β → String) (val : β → α)
    (rows : List β) (init : List (String × α)) (k : String) (v : α)
    (hex : init.lookup k = some v ∨ ∃ x ∈ rows, key x = k)
    (huniq : ∀ x ∈ rows, key x = k → val x = v) :
    (rows.foldl (fun out x => setKey out (key x) (val x)) init).lookup k = some v := by
  induction rows generalizing init with
  | nil =>
    rcases hex with h | ⟨x, hx, -⟩
    · exact h
    · exact absurd hx (List.not_mem_nil _)
  | cons r rest ih =>
    rw [List.foldl_cons]
    apply ih
    · by_cases hr : key r = k
      · left
        rw [← hr, lookup_setKey_self, huniq r (List.mem_cons_self _ _) hr]
      · rcases hex with h | ⟨x, hx, hk⟩
        · left
          rw [lookup_setKey_of_ne init _ fun e => hr e.symm]
          exact h
        · rcases List.mem_cons.mp hx with rfl | hx
          · exact absurd hk hr
          · exact Or.inr ⟨x, hx, hk⟩
    · exact fun x hx => huniq x (List.mem_cons_of_mem _ hx)

/-- Every raw asset of the response gets its entry: the result of
`fetchCurrencies` holds, under the code of the i-th raw asset, the currency
built from it, when no later asset has the same code. -/
theorem fetchCurrencies_lookup (X : Exchange) (response : Option Json) (i : ℕ) (row : Json)
    (hrow : (rawProducts response)[i]? = some row)
    (hlast : ∀ (j : ℕ) (row' : Json), i < j → (rawProducts response)[j]? = some row' →
      jsStr (parseCurrency X row').code ≠ jsStr (parseCurrency X row).code) :
    (fetchCurrencies X response).lookup (jsStr (parseCurrency X row).code)
      = some (parseCurrency X row) :=
  lookup_foldl_setKey_of_last (fun currency => jsStr (parseCurrency X currency).code)
    (fun currency => parseCurrency X currency) (rawProducts response) [] i row hrow hlast

/-- C19: for every raw asset record, the currency `fetchCurrencies` builds from
it is active if and only if its `deposit_status` reads `enabled` and its
`withdrawal_status` reads `enabled`.  Every raw asset of the response gets this
currency as its entry: the result holds it under the asset's code when no later
asset has the same code, and every entry of the result is built this way from
the raw record kept under `info`.  An absent status makes the currency
inactive, and for statuses given as strings the condition is that both strings
are exactly `enabled`. -/
theorem fetchCurrencies_active (X : Exchange) (response : Option Json) :
    (∀ (i : ℕ) (row : Json), (rawProducts response)[i]? = some row →
        (∀ (j : ℕ) (row' : Json), i < j → (rawProducts response)[j]? = some row' →
          jsStr (parseCurrency X row').code ≠ jsStr (parseCurrency X row).code) →
        ∃ c, (fetchCurrencies X response).lookup (jsStr (parseCurrency X row).code) = some c ∧
          c.info = row ∧
          (c.active = true ↔
            (safeString X (some row) "deposit_status" = some "enabled" ∧
              safeString X (some row) "withdrawal_status" = some "enabled"))) ∧
    (∀ currency : Json,
        (parseCurrency X currency).active = true ↔
          (safeString X (some currency) "deposit_status" = some "enabled" ∧
            safeString X (some currency) "withdrawal_status" = some "enabled")) ∧
      (∀ entry ∈ fetchCurrencies X response,
        entry.2.info ∈ rawProducts response ∧
        (entry.2.active = true ↔
          (safeString X (some entry.2.info) "deposit_status" = some "enabled" ∧
            safeString X (some entry.2.info) "withdrawal_status" = some "enabled"))) ∧
      (∀ currency : Json,
        prop (some currency) "deposit_status" = none ∨
            prop (some currency) "withdrawal_status" = none →
          (parseCurrency X currency).active = false) ∧
      (∀ (currency : Json) (deposit withdrawal : String),
        prop (some currency) "deposit_status" = some (Json.str deposit) →
        prop (some currency) "withdrawal_status" = some (Json.str withdrawal) →
          ((parseCurrency X currency).active = true ↔
            (deposit = "enabled" ∧ withdrawal = "enabled"))) := by
  refine ⟨fun i row hrow hlast =>
    ⟨parseCurrency X row, fetchCurrencies_lookup X response i row hrow hlast, rfl,
      parseCurrency_active X row⟩, parseCurrency_active X, ?_, ?_, ?_⟩
  · intro entry h
    obtain ⟨hmem, hcur⟩ := mem_fetchCurrencies h
    refine ⟨hmem, ?_⟩
    have := parseCurrency_active X entry.2.info
    rw [← hcur] at this
    exact this
  · intro currency h
    have hne := parseCurrency_active X currency
    cases hact : (parseCurrency X currency).active with
    | false => rfl
    | true =>
      obtain ⟨hd, hw⟩ := hne.mp hact
      rcases h with h | h
      · simp [safeString, h] at hd
      · simp [safeString, h] at hw
  · intro currency deposit withdrawal hd hw
    rw [parseCurrency_active, safeString_str X hd, safeString_str X hw]
    simp

theorem sample_rawAssets :
    rawProducts sampleAssetsResponse = [sampleAsset, sampleAssetNoWithdrawal] := by
  simp [rawProducts, safeValue, sampleAssetsResponse, prop, List.lookup]

theorem sample_asset_codes :
    (parseCurrency sampleExchange sampleAsset).code = some "BTC" ∧
      (parseCurrency sampleExchange sampleAssetNoWithdrawal).code = some "ETH" := by
  constructor <;>
    simp [parseCurrency, safeString, safeCurrencyCode, prop, List.lookup, sampleAsset,
      sampleAssetNoWithdrawal, jsString, sampleExchange]

theorem fetchCurrencies_active_witness :
    (rawProducts sampleAssetsResponse)[0]? = some sampleAsset ∧
      (rawProducts sampleAssetsResponse)[1]? = some sampleAssetNoWithdrawal ∧
      (∃ c, (fetchCurrencies sampleExchange sampleAssetsResponse).lookup "BTC" = some c ∧
        c.info = sampleAsset ∧ c.active = true) ∧
      (∃ c, (fetchCurrencies sampleExchange sampleAssetsResponse).lookup "ETH" = some c ∧
        c.info = sampleAssetNoWithdrawal ∧ c.active ≠ true) :=
  have h0 : (rawProducts sampleAssetsResponse)[0]? = some sampleAsset := by
    rw [sample_rawAssets]
    rfl
  have h1 : (rawProducts sampleAssetsResponse)[1]? = some sampleAssetNoWithdrawal := by
    rw [sample_rawAssets]
    rfl
  have hlast0 : ∀ (j : ℕ) (row' : Json), 0 < j →
      (rawProducts sampleAssetsResponse)[j]? = some row' →
      jsStr (parseCurrency sampleExchange row').code
        ≠ jsStr (parseCurrency sampleExchange sampleAsset).code := by
    intro j row' hj hrow'
    rw [sample_rawAssets] at hrow'
    rcases j with _ | _ | j
    · exact absurd hj (Nat.lt_irrefl 0)
    · simp only [zero_add, List.getElem?_cons_succ, List.getElem?_cons_zero,
        Option.some.injEq] at hrow'
      subst hrow'
      rw [sample_asset_codes.1, sample_asset_codes.2]
      decide
    · simp at hrow'
  have hlast1 : ∀ (j : ℕ) (row' : Json), 1 < j →
      (rawProducts sampleAssetsResponse)[j]? = some row' →
      jsStr (parseCurrency sampleExchange row').code
        ≠ jsStr (parseCurrency sampleExchange sampleAssetNoWithdrawal).code := by
    intro j row' hj hrow'
    rw [sample_rawAssets] at hrow'
    rcases j with _ | _ | j
    · exact absurd hj (by decide)
    · exact absurd hj (Nat.lt_irrefl 1)
    · simp at hrow'
  have hd : safeString sampleExchange (some sampleAsset) "deposit_status" = some "enabled" := by
    simp [safeString, prop, List.lookup, sampleAsset, jsString]
  have hw : safeString sampleExchange (some sampleAsset) "withdrawal_status"
      = some "enabled" := by
    simp [safeString, prop, List.lookup, sampleAsset, jsString]
  have hw₂ : safeString sampleExchange (some sampleAssetNoWithdrawal) "withdrawal_status"
      = some "disabled" := by
    simp [safeString, prop, List.lookup, sampleAssetNoWithdrawal, jsString]
  ⟨h0, h1,
    ((fetchCurrencies_active sampleExchange sampleAssetsResponse).1 0 sampleAsset h0
      hlast0).imp fun _ h =>
        ⟨by have := h.1; rw [sample_asset_codes.1] at this; exact this, h.2.1,
          h.2.2.mpr ⟨hd, hw⟩⟩,
    ((fetchCurrencies_active sampleExchange sampleAssetsResponse).1 1
      sampleAssetNoWithdrawal h1 hlast1).imp fun _ h =>
        ⟨by have := h.1; rw [sample_asset_codes.2] at this; exact this, h.2.1, fun hact =>
          absurd ((h.2.2.mp hact).2.symm.trans hw₂) (by decide)⟩⟩

theorem loadMarkets_reload (X : Exchange) (superLoadMarkets : Bool → State → Except Error State)
    (st st₁ : State) (h : superLoadMarkets true st = Except.ok st₁) :
    loadMarkets X superLoadMarkets true st
      = Except.ok { st₁ with
          currenciesByNumericId := some (indexByNumericId X st₁.currencies) } := by
  simp [loadMarkets, h]

theorem loadMarkets_index (X : Exchange) (superLoadMarkets : Bool → State → Except Error State)
    (st st₁ : State) (h : superLoadMarkets false st = Except.ok st₁)
    (hindex : st₁.currenciesByNumericId = none ∨
      st₁.currenciesByNumericId = some (indexByNumericId X st₁.currencies)) :
    ∃ st₂, loadMarkets X superLoadMarkets false st = Except.ok st₂ ∧
      st₂.currenciesByNumericId = some (indexByNumericId X st₁.currencies) := by
  rcases hindex with hnone | hsome
  · exact ⟨_, by simp [loadMarkets, h, hnone]; rfl, rfl⟩
  · exact ⟨st₁, by simp [loadMarkets, h, hsome], hsome⟩

theorem indexByNumericId_lookup (X : Exchange) (currencies : List (String × Currency))
    (c : Currency) (n : ℤ) (hc : c ∈ currencies.map Prod.snd) (hn : c.numericId = some n)
    (huniq : ∀ c' ∈ currencies.map Prod.snd,
      numericKey X c'.numericId = numericKey X (some n) → c' = c) :
    (indexByNumericId X currencies).lookup (numericKey X (some n)) = some c := by
  unfold indexByNumericId
  apply lookup_foldl_setKey_of_unique (fun kv : String × Currency => numericKey X kv.2.numericId)
    (fun kv : String × Currency => kv.2)
  · obtain ⟨kv, hkv, rfl⟩ := List.mem_map.mp hc
    exact Or.inr ⟨kv, hkv, by rw [hn]⟩
  · intro kv hkv hkey
    exact huniq kv.2 (List.mem_map.mpr ⟨kv, hkv, rfl⟩) hkey

theorem balanceCode_of_lookup (X : Exchange) (index : List (String × Currency))
    (row : Json) (c : Currency) (n : ℤ)
    (hasset : prop (some row) "asset_id" = some (Json.num (n : ℤ)))
    (hlookup : index.lookup (numericKey X (some n)) = some c) :
    balanceCode X index row = c.code := by
  have hid : safeString X (some row) "asset_id" = some (X.numberToString (n : ℚ)) := by
    simp [safeString, hasset, jsString]
  have hkey : jsStr (some (X.numberToString (n : ℚ))) = numericKey X (some n) := rfl
  simp only [balanceCode, hid, hkey, hlookup]

/-- C20: `fetchBalance` loads the catalog, requests the wallet, and files each
wallet row under the code of its currency, resolved through the
numericId-to-currency index that `loadMarkets` builds from the currency catalog.
Precisely: let the catalog after the base load hold a currency `c` with
numericId `n`, numeric ids being keys of the catalog, and let the index be
unset or the one built from that catalog.  Then `loadMarkets` leaves the index
built from the catalog and the index maps `n` to `c`; the loop step for a
wallet row with `asset_id = n` assigns, under `c.code`, the account with
total = the row's `balance` and free = the row's `available_balance`; and the
dictionary handed to `parseBalance` holds that account under `c.code` when no
later row is filed under the same code.  With `reload` requested, `loadMarkets`
always rebuilds the index from the reloaded catalog. -/
theorem fetchBalance_files_by_numericId (X : Exchange) (W : World) (st st₁ : State)
    (params : Dict) (response : Option Json) (rows : List Json) (i : ℕ) (row : Json)
    (c : Currency) (n : ℤ)
    (hsuper : W.superLoadMarkets false st = Except.ok st₁)
    (hindex : st₁.currenciesByNumericId = none ∨
      st₁.currenciesByNumericId = some (indexByNumericId X st₁.currencies))
    (hrespond : W.respond "privateGetWalletBalances" params = Except.ok response)
    (hrows : prop response "result" = some (Json.arr rows))
    (hrow : rows[i]? = some row)
    (hasset : prop (some row) "asset_id" = some (Json.num (n : ℤ)))
    (hc : c ∈ st₁.currencies.map Prod.snd) (hn : c.numericId = some n)
    (huniq : ∀ c' ∈ st₁.currencies.map Prod.snd,
      numericKey X c'.numericId = numericKey X (some n) → c' = c) :
    (∃ (st₂ : State) (result : List (String × BalanceEntry)),
      loadMarkets X W.superLoadMarkets false st = Except.ok st₂ ∧
      st₂.currenciesByNumericId = some (indexByNumericId X st₁.currencies) ∧
      (indexByNumericId X st₁.currencies).lookup (numericKey X (some n)) = some c ∧
      (fetchBalance X params).run X W st
        = ([Effect.loadMarkets false, Effect.request "privateGetWalletBalances" params],
            st₂, Except.ok (X.parseBalance result)) ∧
      result = balanceResult X st₂ response ∧
      (∀ filed : List (String × BalanceEntry),
        (fileBalance X (indexByNumericId X st₁.currencies) filed row).lookup (jsStr c.code)
          = some (BalanceEntry.account
              { free := safeFloat X (some row) "available_balance"
                used := none
                total := safeFloat X (some row) "balance" })) ∧
      ((∀ (j : ℕ) (row' : Json), i < j → rows[j]? = some row' →
          jsStr (balanceCode X (indexByNumericId X st₁.currencies) row') ≠ jsStr c.code) →
        result.lookup (jsStr c.code)
          = some (BalanceEntry.account
              { free := safeFloat X (some row) "available_balance"
                used := none
                total := safeFloat X (some row) "balance" }))) ∧
    (∀ st₀ st₃ : State, W.superLoadMarkets true st₀ = Except.ok st₃ →
      loadMarkets X W.superLoadMarkets true st₀
        = Except.ok { st₃ with
            currenciesByNumericId := some (indexByNumericId X st₃.currencies) }) := by
  refine ⟨?_, fun st₀ st₃ h => loadMarkets_reload X W.superLoadMarkets st₀ st₃ h⟩
  obtain ⟨st₂, hload, hst₂⟩ := loadMarkets_index X W.superLoadMarkets st st₁ hsuper hindex
  have hlookup := indexByNumericId_lookup X st₁.currencies c n hc hn huniq
  have hcode := balanceCode_of_lookup X _ row c n hasset hlookup
  refine ⟨st₂, balanceResult X st₂ response, hload, hst₂, hlookup, ?_, rfl, ?_, ?_⟩
  · simp only [fetchBalance, Call.run, hload, hrespond]
  · intro filed
    simp only [fileBalance, hcode, lookup_setKey_self]
    rfl
  · intro hlast
    have hfile : fileBalance X (indexByNumericId X st₁.currencies)
        = fun out x =>
            setKey out (jsStr (balanceCode X (indexByNumericId X st₁.currencies) x))
              (BalanceEntry.account (balanceAccount X x)) := rfl
    simp only [balanceResult, hst₂, Option.getD_some, rawProducts_of_result hrows, hfile]
    have hfold := lookup_foldl_setKey_of_last
      (fun x => jsStr (balanceCode X (indexByNumericId X st₁.currencies) x))
      (fun x => BalanceEntry.account (balanceAccount X x)) rows
      [("info", BalanceEntry.info response)] i row hrow
      (fun j row' hij hj => by
        simp only [hcode]
        exact hlast j row' hij hj)
    simp only [hcode] at hfold
    exact hfold

theorem sampleCurrency_fields :
    sampleCurrency.numericId = some 2 ∧ sampleCurrency.code = some "BTC" := by
  have h2 : jsTrunc (2 : ℚ) = 2 := by
    have := jsTrunc_intCast 2
    simpa using this
  constructor <;>
    simp [sampleCurrency, parseCurrency, safeInteger, asInteger, safeString, safeCurrencyCode,
      prop, List.lookup, sampleAsset, jsString, sampleExchange, h2]

theorem sampleWalletRow_fields :
    prop (some sampleWalletRow) "asset_id" = some (Json.num ((2 : ℤ) : ℚ)) ∧
      safeFloat sampleExchange (some sampleWalletRow) "available_balance" = some 3 ∧
      safeFloat sampleExchange (some sampleWalletRow) "balance" = some 5 := by
  refine ⟨?_, ?_, ?_⟩ <;>
    simp [sampleWalletRow, prop, List.lookup, safeFloat, asFloat]

theorem fetchBalance_files_by_numericId_witness :
    sampleWalletWorld.superLoadMarkets false sampleStateWithCurrency
        = Except.ok sampleStateWithCurrency ∧
      sampleStateWithCurrency.currenciesByNumericId = none ∧
      prop (some sampleWalletRow) "asset_id" = some (Json.num ((2 : ℤ) : ℚ)) ∧
      sampleCurrency.numericId = some 2 ∧
      ∃ (st₂ : State) (result : List (String × BalanceEntry)),
        (fetchBalance sampleExchange []).run sampleExchange sampleWalletWorld
            sampleStateWithCurrency
          = ([Effect.loadMarkets false, Effect.request "privateGetWalletBalances" []],
              st₂, Except.ok (sampleExchange.parseBalance result)) ∧
        result.lookup "BTC"
          = some (BalanceEntry.account { free := some 3, used := none, total := some 5 }) :=
  have hlast : ∀ (j : ℕ) (row' : Json), 0 < j → [sampleWalletRow][j]? = some row' →
      jsStr (balanceCode sampleExchange
          (indexByNumericId sampleExchange sampleStateWithCurrency.currencies) row')
        ≠ jsStr sampleCurrency.code := by
    intro j row' hj hrow'
    cases j with
    | zero => exact absurd hj (Nat.lt_irrefl 0)
    | succ j => simp at hrow'
  have huniq : ∀ c' ∈ sampleStateWithCurrency.currencies.map Prod.snd,
      numericKey sampleExchange c'.numericId = numericKey sampleExchange (some 2) →
        c' = sampleCurrency := by
    intro c' hc' _
    simpa [sampleStateWithCurrency] using hc'
  ⟨rfl, rfl, sampleWalletRow_fields.1, sampleCurrency_fields.1,
    (fetchBalance_files_by_numericId sampleExchange sampleWalletWorld
      sampleStateWithCurrency sampleStateWithCurrency []
      (some (Json.obj [("result", Json.arr [sampleWalletRow])])) [sampleWalletRow] 0
      sampleWalletRow sampleCurrency 2 rfl (Or.inl rfl) rfl
      (by simp [prop, List.lookup]) rfl sampleWalletRow_fields.1
      (by simp [sampleStateWithCurrency]) sampleCurrency_fields.1 huniq).1.imp
      fun _ h => h.imp fun _ h =>
        ⟨h.2.2.2.1, by
          have hres := h.2.2.2.2.2.2 hlast
          rw [sampleCurrency_fields.2, sampleWalletRow_fields.2.1,
            sampleWalletRow_fields.2.2] at hres
          exact hres⟩⟩

/-! ## fetchTime, fetchStatus -/

theorem callIntegerProduct_misspelt (X : Exchange) (o : Option Json) (k : String)
    (factor : ℚ) :
    callIntegerProduct X "safeIntegerProdut" o k factor
      = Except.error (Error.TypeError "this.safeIntegerProdut is not a function") := by
  have h : ¬ ("safeIntegerProdut" = "safeIntegerProduct") := by decide
  simp only [callIntegerProduct, h, if_false]
  rfl

/-- C21 (the code at the failing input): `fetchTime` and `fetchStatus` never
return a value.  After the settings request both call the accessor under the
name `safeIntegerProdut`, which the base client does not have, so they throw a
`TypeError`; on the settings response with `server_time = 1605472733766141`
the scaling used by `parseTicker` and `parseTrade` gives `1605472733766`, which
is what the two methods were meant to return. -/
theorem fetchTime_throws (X : Exchange) (W : World) (st : State) (params : Dict) :
    (∀ time : Option ℤ, ((fetchTime X params).run X W st).2.2 ≠ Except.ok time) ∧
      (∀ status : Dict, ((fetchStatus X params).run X W st).2.2 ≠ Except.ok status) ∧
      (fetchTime sampleExchange []).run sampleExchange sampleSettingsWorld sampleState
        = ([Effect.request "publicGetSettings" []], sampleState,
            Except.error (Error.TypeError "this.safeIntegerProdut is not a function")) ∧
      (fetchStatus sampleExchange []).run sampleExchange sampleSettingsWorld sampleState
        = ([Effect.request "publicGetSettings" []], sampleState,
            Except.error (Error.TypeError "this.safeIntegerProdut is not a function")) ∧
      safeIntegerProduct sampleExchange
          (safeValue sampleSettingsResponse "result" (some (Json.obj []))) "server_time"
          jsMilli
        = some 1605472733766 := by
  refine ⟨?_, ?_, ?_, ?_, ?_⟩
  · intro time
    simp only [fetchTime, Call.run, callIntegerProduct_misspelt]
    cases W.respond "publicGetSettings" params <;> simp
  · intro status
    simp only [fetchStatus, Call.run, callIntegerProduct_misspelt]
    cases W.respond "publicGetSettings" params <;> simp
  · simp only [fetchTime, Call.run, callIntegerProduct_misspelt, sampleSettingsWorld]
    rfl
  · simp only [fetchStatus, Call.run, callIntegerProduct_misspelt, sampleSettingsWorld]
    rfl
  · have hprop : prop (safeValue sampleSettingsResponse "result" (some (Json.obj [])))
        "server_time" = some (Json.num ((1605472733766141 : ℤ) : ℚ)) := by
      simp [safeValue, sampleSettingsResponse, prop, List.lookup]
    have hlt : |(1605472733766141 : ℤ)| < 8796093022208000 := by
      rw [abs_lt]
      constructor <;> norm_num
    rw [safeIntegerProduct_int sampleExchange hprop hlt]
    decide

/-! ## handleErrors: when it raises -/

theorem handleErrors_of_no_code (X : Exchange) (code : ℤ) (reason url method : String)
    (headers : Option (List (String × String))) (body : String) (response : Json)
    (requestHeaders : Option (List (String × String))) (requestBody : Option String)
    (h : responseErrorCode X response = none) :
    handleErrors X code reason url method headers body (some response) requestHeaders
        requestBody = Except.ok () := by
  unfold responseErrorCode at h
  simp only [handleErrors, h]

/-- C22: `handleErrors` raises if and only if the response is defined and an
`error.code` is read from it.  It returns normally when the response is
undefined, when it has no `error` field, and when its `error` has no `code`,
for every HTTP status code, reason, body and request, and whatever else the
response carries (its `success` flag included). -/
theorem handleErrors_raises_iff (X : Exchange) (code : ℤ) (reason url method : String)
    (headers : Option (List (String × String))) (body : String) (response : Option Json)
    (requestHeaders : Option (List (String × String))) (requestBody : Option String) :
    ((∃ e, handleErrors X code reason url method headers body response requestHeaders
          requestBody = Except.error e) ↔
        ∃ r errorCode, response = some r ∧ responseErrorCode X r = some errorCode) ∧
      (response = none →
        handleErrors X code reason url method headers body response requestHeaders
          requestBody = Except.ok ()) ∧
      (∀ r, response = some r → prop (some r) "error" = none →
        handleErrors X code reason url method headers body response requestHeaders
          requestBody = Except.ok ()) ∧
      (∀ r error, response = some r → prop (some r) "error" = some error →
        prop (some error) "code" = none →
        handleErrors X code reason url method headers body response requestHeaders
          requestBody = Except.ok ()) := by
  refine ⟨?_, ?_, ?_, ?_⟩
  · cases response with
    | none =>
      constructor
      · rintro ⟨e, he⟩
        simp [handleErrors] at he
      · rintro ⟨r, c, hr, -⟩
        cases hr
    | some r =>
      cases hc : responseErrorCode X r with
      | none =>
        rw [handleErrors_of_no_code X code reason url method headers body r requestHeaders
          requestBody hc]
        constructor
        · rintro ⟨e, he⟩
          cases he
        · rintro ⟨r', c, hr, hc'⟩
          cases hr
          rw [hc] at hc'
          cases hc'
      | some c =>
        rw [handleErrors_of_code X code reason url method headers body r requestHeaders
          requestBody hc]
        exact ⟨fun _ => ⟨r, c, rfl, hc⟩, fun _ => ⟨_, rfl⟩⟩
  · rintro rfl
    rfl
  · rintro r rfl herr
    apply handleErrors_of_no_code
    simp only [responseErrorCode, safeValue, herr]
    simp [safeString, prop]
  · rintro r error rfl herr hcode
    apply handleErrors_of_no_code
    have hsv : safeValue (some r) "error" (some (Json.obj [])) = some error ∨
        safeValue (some r) "error" (some (Json.obj [])) = some (Json.obj []) := by
      cases error <;> simp [safeValue, herr]
    rcases hsv with h | h
    · simp [responseErrorCode, h, safeString, hcode]
    · simp [responseErrorCode, h, safeString, prop]

theorem handleErrors_raises_iff_witness :
    prop sampleSettingsResponse "error" = none ∧
      handleErrors sampleExchange 500 "Internal Server Error"
          "https://api.delta.exchange/v2/settings" "GET" none "raw body"
          sampleSettingsResponse none none = Except.ok () ∧
      handleErrors sampleExchange 500 "Internal Server Error"
          "https://api.delta.exchange/v2/settings" "GET" none "raw body" none none none
        = Except.ok () :=
  have herr : prop sampleSettingsResponse "error" = none := by
    simp [sampleSettingsResponse, prop, List.lookup]
  ⟨herr,
    (handleErrors_raises_iff sampleExchange 500 "Internal Server Error"
      "https://api.delta.exchange/v2/settings" "GET" none "raw body" sampleSettingsResponse
      none none).2.2.1 _ rfl herr,
    (handleErrors_raises_iff sampleExchange 500 "Internal Server Error"
      "https://api.delta.exchange/v2/settings" "GET" none "raw body" none none none).2.1 rfl⟩

/-! ## sign: the query string of a private GET or DELETE -/

/-- C23: for every private GET or DELETE call with the API key and the secret
set, the text
`sign` appends to the base url is the text it appends to
`method + timestamp` in the signed string: the returned url is the base url
followed by a suffix, and the signature is the hmac of
`method + timestamp + suffix`.  With a non-empty query the suffix is the request
path followed by `'?' + urlencode (query)`, the same query string in both; with
an empty query it is the request path alone, and neither gets a `'?'`. -/
theorem sign_private_query_string (X : Exchange) (path method key secret : String)
    (params : List (String × Json)) (headers : Option (List (String × String)))
    (body : Option String)
    (hkey : X.apiKey = some key) (hne : key ≠ "") (hsecret : X.secret = some secret)
    (hmethod : method = "GET" ∨ method = "DELETE") :
    ∃ req hs suffix, sign X path "private" method params headers body = Except.ok req ∧
      req.headers = some hs ∧
      req.url = X.apiPrivate ++ suffix ∧
      hs.lookup "signature"
        = some (X.hmac (method ++ toString X.seconds ++ suffix) X.secret) ∧
      (omit_ params (X.extractParams path) ≠ [] →
        suffix = "/" ++ X.version ++ "/" ++ X.implodeParams path params
          ++ ("?" ++ X.urlencode (omit_ params (X.extractParams path)))) ∧
      (omit_ params (X.extractParams path) = [] →
        suffix = "/" ++ X.version ++ "/" ++ X.implodeParams path params) := by
  have hs := sign_private_ok X path method params headers body
    (checkRequiredCredentials_ok X hkey hne) hsecret
  by_cases hq : omit_ params (X.extractParams path) = []
  · have hlen : (omit_ params (X.extractParams path)).length = 0 := by simp [hq]
    simp only [hmethod, hlen, if_true, ne_eq, not_true_eq_false, if_false] at hs
    exact ⟨_, _, "/" ++ X.version ++ "/" ++ X.implodeParams path params, hs, rfl,
      by simp [apiUrl, jsStr], by simp [List.lookup, String.append_assoc],
      fun h => absurd hq h, fun _ => rfl⟩
  · have hlen : (omit_ params (X.extractParams path)).length ≠ 0 := by
      simpa [List.length_eq_zero] using hq
    simp only [hmethod, hlen, if_true, ne_eq, not_false_eq_true] at hs
    exact ⟨_, _, "/" ++ X.version ++ "/" ++ X.implodeParams path params
        ++ ("?" ++ X.urlencode (omit_ params (X.extractParams path))), hs, rfl,
      by simp [apiUrl, jsStr, String.append_assoc],
      by simp [List.lookup, String.append_assoc],
      fun _ => rfl, fun h => absurd h hq⟩

theorem sign_private_query_string_witness :
    sampleExchange.apiKey = some "key" ∧ sampleExchange.secret = some "k" ∧
      omit_ [("page_size", Json.num 10)] (sampleExchange.extractParams "orders") ≠ [] ∧
      ∃ req hs suffix,
        sign sampleExchange "orders" "private" "GET" [("page_size", Json.num 10)] none none
          = Except.ok req ∧
        req.headers = some hs ∧
        req.url = sampleExchange.apiPrivate ++ suffix ∧
        hs.lookup "signature"
          = some (sampleExchange.hmac ("GET" ++ toString sampleExchange.seconds ++ suffix)
              sampleExchange.secret) :=
  ⟨rfl, rfl, by simp [omit_, sampleExchange],
    (sign_private_query_string sampleExchange "orders" "GET" "key" "k"
      [("page_size", Json.num 10)] none none rfl (by decide) rfl (Or.inl rfl)).imp
      fun _ h => h.imp fun _ h => h.imp fun _ h => ⟨h.1, h.2.1, h.2.2.1, h.2.2.2.1⟩⟩

/-! ## fetchOHLCV -/

theorem jsTrunc_int_div_thousand (t : ℤ) : jsTrunc ((t : ℚ) / 1000) = t.tdiv 1000 := by
  rw [div_eq_mul_one_div, jsTrunc_int_milli]

theorem ohlcvLimit_spec (limit : Option ℤ) :
    ohlcvLimit limit
      = match limit with
        | none => 2000
        | some l => if l = 0 then 2000 else l := by
  cases limit with
  | none => rfl
  | some l => by_cases h : l = 0 <;> simp [ohlcvLimit, h]

theorem fetchOHLCVRequest_window (X : Exchange) (market : Market) (timeframe : String)
    (since limit : Option ℤ) :
    (fetchOHLCVRequest X market timeframe since limit).lookup "start"
        = some (some (Json.num
            (((ohlcvWindowSpec X.seconds (X.parseTimeframe timeframe) since limit).1 : ℤ) : ℚ))) ∧
      (fetchOHLCVRequest X market timeframe since limit).lookup "end"
        = some (some (Json.num
            (((ohlcvWindowSpec X.seconds (X.parseTimeframe timeframe) since limit).2 : ℤ) : ℚ))) := by
  cases since with
  | none =>
    simp only [fetchOHLCVRequest, ohlcvWindowSpec, ohlcvLimit_spec]
    constructor
    · rw [lookup_setKey_self]
    · rw [lookup_setKey_of_ne _ _ (by decide), lookup_setKey_self]
  | some t =>
    simp only [fetchOHLCVRequest, ohlcvWindowSpec, ohlcvLimit_spec, jsTrunc_int_div_thousand]
    constructor
    · rw [lookup_setKey_of_ne _ _ (by decide), lookup_setKey_self]
    · rw [lookup_setKey_self]

/-- C24 (counterexample): `fetchOHLCV` called with `since = 1605393120500`,
`limit = 3000`, timeframe `1m` (60 seconds) and the extra params `{ end: 0 }`
sends `start = 1605393120` and `end = 0`: the window sent does not span
`limit * duration` seconds. -/
theorem fetchOHLCV_params_counterexample :
    (sentRequests
        ((fetchOHLCV sampleExchange "BTC/USDT" "1m" (some 1605393120500) (some 3000)
          [("end", some (Json.num 0))]).run sampleExchange sampleWorld sampleState).1).map
        (fun sent => (sent.1, sent.2.lookup "start", sent.2.lookup "end"))
      = [("publicGetHistoryCandles", some (some (Json.num 1605393120)),
          some (some (Json.num 0)))] ∧
      (0 : ℤ) - 1605393120 ≠ 3000 * sampleExchange.parseTimeframe "1m" := by
  have hmarket : ({ sampleState with currenciesByNumericId := some [] } : State).market
      "BTC/USDT" = Except.ok (parseMarket sampleExchange samplePerpetual) := rfl
  have hext : ∀ request : Dict,
      extend request [("end", some (Json.num 0))] = setKey request "end" (some (Json.num 0)) :=
    fun _ => rfl
  have hstart := (fetchOHLCVRequest_window sampleExchange
    (parseMarket sampleExchange samplePerpetual) "1m" (some 1605393120500) (some 3000)).1
  have hspec : (ohlcvWindowSpec sampleExchange.seconds (sampleExchange.parseTimeframe "1m")
      (some 1605393120500) (some 3000)).1 = 1605393120 := by decide
  rw [hspec] at hstart
  refine ⟨?_, by decide⟩
  simp only [fetchOHLCV, Call.run, sample_loadMarkets, hmarket, sampleWorld, sentRequests,
    List.map, hext, lookup_setKey_self]
  rw [lookup_setKey_of_ne _ _ (by decide), hstart]
  simp

/-- C24 (amended): every `fetchOHLCV` call that resolves its market sends one request, to
`publicGetHistoryCandles`, built with `start` and `end` (in seconds) such that
`end - start = limit * parseTimeframe (timeframe)`, where `limit` is 2000 when
it is undefined or 0 and the caller's value otherwise (a limit above 2000 is
not capped).  With `since` undefined, `end` is the current Unix second and
`start = end - limit * duration`; otherwise `start` is the integer part of
`since / 1000` and `end = start + limit * duration`.  The window is the one of
`ohlcvWindowSpec`, and it is the window of the request sent whenever the extra
params do not themselves carry `start` or `end`. -/
theorem fetchOHLCV_window (X : Exchange) (W : World) (st st₁ : State) (market : Market)
    (symbol timeframe : String) (since limit : Option ℤ) (params : Dict)
    (hload : loadMarkets X W.superLoadMarkets false st = Except.ok st₁)
    (hmarket : st₁.market symbol = Except.ok market) :
    ∃ (sent : Dict) (start end_ : ℤ),
      ((fetchOHLCV X symbol timeframe since limit params).run X W st).1
        = [Effect.loadMarkets false, Effect.request "publicGetHistoryCandles" sent] ∧
      sent = extend (fetchOHLCVRequest X market timeframe since limit) params ∧
      (fetchOHLCVRequest X market timeframe since limit).lookup "start"
        = some (some (Json.num start)) ∧
      (fetchOHLCVRequest X market timeframe since limit).lookup "end"
        = some (some (Json.num end_)) ∧
      ((∀ kv ∈ params, kv.1 ≠ "start") → sent.lookup "start" = some (some (Json.num start))) ∧
      ((∀ kv ∈ params, kv.1 ≠ "end") → sent.lookup "end" = some (some (Json.num end_))) ∧
      (start, end_) = ohlcvWindowSpec X.seconds (X.parseTimeframe timeframe) since limit ∧
      end_ - start = ohlcvLimit limit * X.parseTimeframe timeframe ∧
      (limit = none ∨ limit = some 0 → ohlcvLimit limit = 2000) ∧
      (∀ l : ℤ, limit = some l → l ≠ 0 → ohlcvLimit limit = l) ∧
      (since = none →
        end_ = (X.seconds : ℤ) ∧
        start = end_ - ohlcvLimit limit * X.parseTimeframe timeframe) ∧
      (∀ t : ℤ, since = some t →
        start = t.tdiv 1000 ∧
        end_ = start + ohlcvLimit limit * X.parseTimeframe timeframe) := by
  obtain ⟨hstart, hend⟩ := fetchOHLCVRequest_window X market timeframe since limit
  refine ⟨extend (fetchOHLCVRequest X market timeframe since limit) params,
    (ohlcvWindowSpec X.seconds (X.parseTimeframe timeframe) since limit).1,
    (ohlcvWindowSpec X.seconds (X.parseTimeframe timeframe) since limit).2,
    ?_, rfl, hstart, hend, ?_, ?_, rfl, ?_, ?_, ?_, ?_, ?_⟩
  · simp only [fetchOHLCV, Call.run, hload, hmarket]
    cases W.respond "publicGetHistoryCandles"
      (extend (fetchOHLCVRequest X market timeframe since limit) params) <;> rfl
  · intro h
    rw [lookup_extend_of_not_mem _ _ _ h, hstart]
  · intro h
    rw [lookup_extend_of_not_mem _ _ _ h, hend]
  · cases since <;> simp [ohlcvWindowSpec, ohlcvLimit_spec]
  · rintro (rfl | rfl) <;> simp [ohlcvLimit]
  · rintro l rfl hl
    simp [ohlcvLimit, hl]
  · rintro rfl
    simp [ohlcvWindowSpec, ohlcvLimit_spec]
  · rintro t rfl
    simp [ohlcvWindowSpec, ohlcvLimit_spec]

theorem fetchOHLCV_window_witness :
    loadMarkets sampleExchange sampleWorld.superLoadMarkets false sampleState
        = Except.ok { sampleState with currenciesByNumericId := some [] } ∧
      sampleState.market "BTC/USDT" = Except.ok (parseMarket sampleExchange samplePerpetual) ∧
      ∃ (sent : Dict) (start end_ : ℤ),
        ((fetchOHLCV sampleExchange "BTC/USDT" "1m" (some 1605393120500) (some 3000) []).run
            sampleExchange sampleWorld sampleState).1
          = [Effect.loadMarkets false, Effect.request "publicGetHistoryCandles" sent] ∧
        sent.lookup "start" = some (some (Json.num start)) ∧
        sent.lookup "end" = some (some (Json.num end_)) ∧
        start = 1605393120 ∧ end_ - start = 3000 * 60 :=
  ⟨sample_loadMarkets, rfl,
    (fetchOHLCV_window sampleExchange sampleWorld sampleState _ _ "BTC/USDT" "1m"
      (some 1605393120500) (some 3000) [] sample_loadMarkets rfl).imp fun _ h =>
        h.imp fun _ h => h.imp fun _ h =>
          ⟨h.1, h.2.2.2.2.1 (fun _ hkv => absurd hkv (List.not_mem_nil _)),
            h.2.2.2.2.2.1 (fun _ hkv => absurd hkv (List.not_mem_nil _)),
            (h.2.2.2.2.2.2.2.2.2.2.2 _ rfl).1.trans (by decide),
            h.2.2.2.2.2.2.2.1.trans
              (by rw [h.2.2.2.2.2.2.2.2.2.1 3000 rfl (by decide)]; rfl)⟩⟩

/-! ## Decimal text -/

theorem digitChar_value (k : ℕ) (h : k < 10) :
    (Nat.digitChar k).toNat - 48 = k ∧ (Nat.digitChar k).isDigit = true := by
  interval_cases k <;> decide

/-- Reading the digits printed for `n` in front of `ds`, most significant
first, continues the reading of `ds` from `n`; all of them are digits. -/
theorem toDigitsCore_value (fuel : ℕ) : ∀ (n : ℕ) (ds : List Char), n < fuel →
    (Nat.toDigitsCore 10 fuel n ds).foldl (fun n c => n * 10 + (c.toNat - 48)) 0
        = ds.foldl (fun n c => n * 10 + (c.toNat - 48)) n ∧
      (Nat.toDigitsCore 10 fuel n ds).all Char.isDigit = ds.all Char.isDigit := by
  induction fuel with
  | zero =>
    intro n ds h
    omega
  | succ fuel ih =>
    intro n ds h
    have hd := digitChar_value (n % 10) (Nat.mod_lt _ (by norm_num))
    simp only [Nat.toDigitsCore]
    split_ifs with h0
    · have hn : n % 10 = n := Nat.mod_eq_of_lt (by omega)
      rw [hn] at hd
      rw [hn, List.foldl_cons, List.all_cons, hd.1, hd.2, Nat.zero_mul, Nat.zero_add,
        Bool.true_and]
      exact ⟨rfl, rfl⟩
    · obtain ⟨h1, h2⟩ := ih (n / 10) (Nat.digitChar (n % 10) :: ds) (by omega)
      rw [h1, h2, List.foldl_cons, List.all_cons, hd.1, hd.2, Bool.true_and]
      have hn : n / 10 * 10 + n % 10 = n := by omega
      rw [hn]
      exact ⟨rfl, rfl⟩

/-- The decimal text of `n` followed by `000` reads as `n * 1000`. -/
theorem toNat?_toString_append_zeros (n : ℕ) :
    (toString n ++ "000").toNat? = some (n * 1000) := by
  have hdata : (toString n ++ "000").data = Nat.toDigits 10 n ++ ['0', '0', '0'] := rfl
  obtain ⟨h1, h2⟩ := toDigitsCore_value (n + 1) n [] (Nat.lt_succ_self n)
  have hne : (toString n ++ "000").isEmpty = false := by
    have hnil : (toString n ++ "000").data ≠ [] := by
      rw [hdata]
      simp
    cases h : (toString n ++ "000").isEmpty
    · rfl
    · exfalso
      apply hnil
      rw [(String.isEmpty_iff _).mp h]
  have hfold : (toString n ++ "000").foldl (fun n c => n * 10 + (c.toNat - '0'.toNat)) 0
      = n * 1000 := by
    rw [String.foldl_eq, hdata, List.foldl_append]
    show List.foldl _
      (List.foldl (fun n c => n * 10 + (c.toNat - 48)) 0 (Nat.toDigitsCore 10 (n + 1) n [])) _
        = _
    rw [h1]
    simp only [List.foldl_cons, List.foldl_nil]
    show ((n * 10 + 0) * 10 + 0) * 10 + 0 = n * 1000
    omega
  have hall : (toString n ++ "000").all Char.isDigit = true := by
    rw [String.all_eq, hdata, List.all_append]
    show ((Nat.toDigitsCore 10 (n + 1) n []).all Char.isDigit && _) = true
    rw [h2]
    rfl
  simp only [String.toNat?, String.isNat, hne, hall, hfold]
  rfl

/-! ## fetchOrdersWithMethod, fetchMyTrades -/

theorem listRequest_start_time (market : Option Market) (since limit : Option ℤ) :
    (listRequest market since limit).lookup "start_time"
      = since.map fun (t : ℤ) => some (Json.str (toString t ++ "000")) := by
  have hp : ¬ ("start_time" = "page_size") := by decide
  have hi : ¬ ("start_time" = "product_ids") := by decide
  rcases market with _ | m <;> rcases since with _ | t <;> rcases limit with _ | l <;>
    simp [listRequest, lookup_setKey, hp, hi, List.lookup]

theorem listRequest_page_size (market : Option Market) (since limit : Option ℤ) :
    (listRequest market since limit).lookup "page_size"
      = limit.map fun (l : ℤ) => some (Json.num l) := by
  have hp : ¬ ("page_size" = "start_time") := by decide
  have hi : ¬ ("page_size" = "product_ids") := by decide
  rcases market with _ | m <;> rcases since with _ | t <;> rcases limit with _ | l <;>
    simp [listRequest, lookup_setKey, hp, hi, List.lookup]

theorem fetchOrdersWithMethod_effects (X : Exchange) (W : World) (st st₁ : State)
    (method : String) (symbol : Option String) (market : Option Market)
    (since limit : Option ℤ) (params : Dict)
    (hload : loadMarkets X W.superLoadMarkets false st = Except.ok st₁)
    (hmarket : resolveMarket st₁ symbol = Except.ok market) :
    ((fetchOrdersWithMethod X method symbol since limit params).run X W st).1
      = [Effect.loadMarkets false,
          Effect.request method (extend (listRequest market since limit) params)] := by
  simp only [fetchOrdersWithMethod, Call.run, hload, hmarket]
  cases W.respond method (extend (listRequest market since limit) params) <;> rfl

theorem fetchMyTrades_effects (X : Exchange) (W : World) (st st₁ : State)
    (symbol : Option String) (market : Option Market)
    (since limit : Option ℤ) (params : Dict)
    (hload : loadMarkets X W.superLoadMarkets false st = Except.ok st₁)
    (hmarket : resolveMarket st₁ symbol = Except.ok market) :
    ((fetchMyTrades X symbol since limit params).run X W st).1
      = [Effect.loadMarkets false,
          Effect.request "privateGetFills" (extend (listRequest market since limit) params)] := by
  simp only [fetchMyTrades, Call.run, hload, hmarket]
  cases W.respond "privateGetFills" (extend (listRequest market since limit) params) <;> rfl

/-- C25 (counterexample): `fetchOpenOrders` called with `since` and `limit`
undefined and the extra params `{ start_time: '1' }` sends a request that
carries `start_time`, although `since` is undefined. -/
theorem list_request_params_counterexample :
    (sentRequests
        ((fetchOpenOrders sampleExchange none none none
          [("start_time", some (Json.str "1"))]).run
            sampleExchange sampleWorld sampleState).1).map
        (fun sent => (sent.1, sent.2.lookup "start_time"))
      = [("privateGetOrders", some (some (Json.str "1")))] := by
  simp [fetchOpenOrders, fetchOrdersWithMethod, Call.run, sample_loadMarkets, resolveMarket,
    sampleWorld, sentRequests, listRequest, extend, setKey, List.lookup]

/-- C25 (amended): `fetchOrdersWithMethod` (hence `fetchOpenOrders` and
`fetchClosedOrders`) and `fetchMyTrades`, once the optional market is resolved,
send one request: the same built request with the extra params merged over it.
In the built request `start_time` is present exactly when `since` is defined,
and for a non-negative integer `since` it is the decimal text of `since`
followed by `000`, which reads as the integer `since * 1000`; `page_size` is
present exactly when `limit` is defined, and is then `limit`.  The request sent
has the same `start_time` and `page_size` whenever the extra params do not
themselves carry them. -/
theorem list_request_start_time (X : Exchange) (W : World) (st st₁ : State)
    (symbol : Option String) (market : Option Market) (since limit : Option ℤ)
    (params : Dict)
    (hload : loadMarkets X W.superLoadMarkets false st = Except.ok st₁)
    (hmarket : resolveMarket st₁ symbol = Except.ok market) :
    ∃ sent : Dict,
      sent = extend (listRequest market since limit) params ∧
      (∀ method : String,
        ((fetchOrdersWithMethod X method symbol since limit params).run X W st).1
          = [Effect.loadMarkets false, Effect.request method sent]) ∧
      ((fetchOpenOrders X symbol since limit params).run X W st).1
        = [Effect.loadMarkets false, Effect.request "privateGetOrders" sent] ∧
      ((fetchClosedOrders X symbol since limit params).run X W st).1
        = [Effect.loadMarkets false, Effect.request "privateGetOrdersHistory" sent] ∧
      ((fetchMyTrades X symbol since limit params).run X W st).1
        = [Effect.loadMarkets false, Effect.request "privateGetFills" sent] ∧
      (∀ n : ℕ, since = some (n : ℤ) →
        (listRequest market since limit).lookup "start_time"
          = some (some (Json.str (toString n ++ "000"))) ∧
        (toString n ++ "000").toNat? = some (n * 1000)) ∧
      (((listRequest market since limit).lookup "start_time").isSome = true ↔
        since.isSome = true) ∧
      (((listRequest market since limit).lookup "page_size").isSome = true ↔
        limit.isSome = true) ∧
      (∀ l : ℤ, limit = some l →
        (listRequest market since limit).lookup "page_size" = some (some (Json.num l))) ∧
      ((∀ kv ∈ params, kv.1 ≠ "start_time") →
        sent.lookup "start_time" = (listRequest market since limit).lookup "start_time") ∧
      ((∀ kv ∈ params, kv.1 ≠ "page_size") →
        sent.lookup "page_size" = (listRequest market since limit).lookup "page_size") := by
  refine ⟨extend (listRequest market since limit) params, rfl,
    fun method => fetchOrdersWithMethod_effects X W st st₁ method symbol market since limit
      params hload hmarket,
    fetchOrdersWithMethod_effects X W st st₁ _ symbol market since limit params hload hmarket,
    fetchOrdersWithMethod_effects X W st st₁ _ symbol market since limit params hload hmarket,
    fetchMyTrades_effects X W st st₁ symbol market since limit params hload hmarket,
    ?_, ?_, ?_, ?_, ?_, ?_⟩
  · rintro n rfl
    refine ⟨?_, toNat?_toString_append_zeros n⟩
    rw [listRequest_start_time]
    rfl
  · rw [listRequest_start_time]
    cases since <;> simp
  · rw [listRequest_page_size]
    cases limit <;> simp
  · rintro l rfl
    rw [listRequest_page_size]
    rfl
  · exact fun h => lookup_extend_of_not_mem _ _ _ h
  · exact fun h => lookup_extend_of_not_mem _ _ _ h

theorem list_request_start_time_witness :
    loadMarkets sampleExchange sampleWorld.superLoadMarkets false sampleState
        = Except.ok { sampleState with currenciesByNumericId := some [] } ∧
      ∃ sent : Dict,
        ((fetchOpenOrders sampleExchange none (some 1605393120500) (some 50) []).run
            sampleExchange sampleWorld sampleState).1
          = [Effect.loadMarkets false, Effect.request "privateGetOrders" sent] ∧
        sent.lookup "start_time" = some (some (Json.str "1605393120500000")) ∧
        sent.lookup "page_size" = some (some (Json.num 50)) :=
  ⟨sample_loadMarkets,
    (list_request_start_time sampleExchange sampleWorld sampleState _ none none
      (some 1605393120500) (some 50) [] sample_loadMarkets rfl).imp fun _ h =>
        ⟨h.2.2.1,
          (h.2.2.2.2.2.2.2.2.2.1 (fun _ hkv => absurd hkv (List.not_mem_nil _))).trans
            ((h.2.2.2.2.2.1 1605393120500 rfl).1.trans rfl),
          (h.2.2.2.2.2.2.2.2.2.2 (fun _ hkv => absurd hkv (List.not_mem_nil _))).trans
            ((h.2.2.2.2.2.2.2.2.1 50 rfl).trans (by simp))⟩⟩

end Delta
